import Mathlib

/-!
# Forexpro: ledger, bot lifecycle and referral bonus handlers

A shallow embedding of the request handlers of `src/server.js` that mutate the
ledger (`users`, `transactions`, `trading_bots`, `referral_bonuses`), of the
status update, the admin middleware and the list pagination of
`src/servers/adminServer.js`, and of the bot simulation of
`src/public/js/demo.js`.

Conventions of the embedding

* Amounts are exact rationals (`ℚ`).  The JavaScript source computes with IEEE
  doubles and the store keeps `DECIMAL(15, 2)` columns; neither rounding is
  modelled, every theorem below is about exact arithmetic.
* Currency, type, method and status columns are free-form strings, as in the
  source.
* A table is the list of its rows in insertion order.  `SELECT ... WHERE`
  followed by `rows[0]` is `List.find?`, `UPDATE ... WHERE` is `List.map`,
  `INSERT` appends a row whose id is drawn from the table's `SERIAL` sequence.
* A handler is a function from the store and the request to the store
  afterwards and the response.  The statements of a handler are not wrapped in
  a transaction in the source, so a handler that throws half way keeps the
  writes it already made.
* `authenticateToken` / `authenticateAdmin` are outside the embedding: the
  handlers receive the verified `userId`.
-/

namespace Forexpro

/-! ## Currency conversion (`src/server.js`, lines 27-51) -/

namespace EXCHANGE_RATES

/-- Rate `EXCHANGE_RATES.USD_TO_KSH`: 1 USD = 150 KSH. -/
def USD_TO_KSH : ℚ := 150.0

/-- Rate `EXCHANGE_RATES.KSH_TO_USD`, written `1/150.0` in the source. -/
def KSH_TO_USD : ℚ := 1 / 150.0

end EXCHANGE_RATES

/-- Function `convertCurrency(amount, fromCurrency, toCurrency)`. -/
def convertCurrency (amount : ℚ) (fromCurrency toCurrency : String) : ℚ :=
  if fromCurrency = toCurrency then amount
  else if fromCurrency = "USD" ∧ toCurrency = "KSH" then
    amount * EXCHANGE_RATES.USD_TO_KSH
  else if fromCurrency = "KSH" ∧ toCurrency = "USD" then
    amount * EXCHANGE_RATES.KSH_TO_USD
  else amount

/-! ## Rows and the store (`initializeDatabase`, lines 158-229) -/

/-- Row of table `users` (the columns the ledger handlers read or write). -/
structure User where
  id : Nat
  email : String
  currency : String
  balance : ℚ
  profit : ℚ
  active_bots : Int
  referrals : Int
  referral_code : Option String
  referred_by : Option String
  role : String
  password : Option String
deriving DecidableEq

/-- Row of table `transactions`. -/
structure Transaction where
  id : Nat
  user_id : Nat
  type : String
  method : String
  amount : ℚ
  currency : String
  status : String
  address : Option String
  network : Option String
deriving DecidableEq

/-- Row of table `trading_bots`. -/
structure TradingBot where
  id : Nat
  user_id : Nat
  name : String
  investment : ℚ
  daily_profit : ℚ
  total_profit : ℚ
  progress : Int
  image_url : String
  status : String
deriving DecidableEq

/-- Row of table `referral_bonuses` (timestamps are not modelled). -/
structure ReferralBonus where
  id : Nat
  referrer_id : Nat
  referred_id : Nat
  amount : ℚ
  currency : String
  status : String
deriving DecidableEq

/-- The store: four tables and the next value of each `SERIAL` sequence. -/
structure Db where
  users : List User
  transactions : List Transaction
  trading_bots : List TradingBot
  referral_bonuses : List ReferralBonus
  users_seq : Nat
  transactions_seq : Nat
  trading_bots_seq : Nat
  referral_bonuses_seq : Nat
deriving DecidableEq

/-- What a handler sends back: the validator's `400 { errors }`, or a status
code with the `message` field of the JSON body. -/
inductive Response where
  | validationErrors : Response
  | json (status : Nat) (message : String) : Response
deriving DecidableEq

/-- Query `SELECT ... FROM users WHERE id = $1`, then `rows[0]`. -/
def selectUser (db : Db) (userId : Nat) : Option User :=
  db.users.find? (fun u => decide (u.id = userId))

/-- Statement `UPDATE users SET ... WHERE id = $1`. -/
def updateUser (db : Db) (userId : Nat) (set : User → User) : Db :=
  { db with users := db.users.map (fun u => if u.id = userId then set u else u) }

/-- Statement `INSERT INTO transactions ...`: the row gets the next id. -/
def insertTransaction (db : Db) (row : Nat → Transaction) : Db :=
  { db with
    transactions := db.transactions ++ [row db.transactions_seq]
    transactions_seq := db.transactions_seq + 1 }

/-- JavaScript truthiness of a nullable string column. -/
def truthy (s : Option String) : Bool :=
  match s with
  | none => false
  | some v => decide (v ≠ "")

/-! ## Bot purchase: `POST /api/bots` (lines 964-1052) -/

/-- One entry `{ min, multiplier }` of the investment bracket table. -/
structure Bracket where
  min : ℚ
  multiplier : ℚ
deriving DecidableEq

/-- Table `brackets` of the bot purchase handler, in source order. -/
def brackets : List Bracket :=
  [ { min := 100000, multiplier := 2.5 },
    { min := 70000, multiplier := 2.8 },
    { min := 50000, multiplier := 2.25 },
    { min := 45000, multiplier := 2.3 },
    { min := 40000, multiplier := 2.3 },
    { min := 30000, multiplier := 2.6 },
    { min := 20000, multiplier := 2.5 },
    { min := 15000, multiplier := 2.4 },
    { min := 10000, multiplier := 2.3 },
    { min := 7000, multiplier := 2.65 },
    { min := 2000, multiplier := 2.33 },
    { min := 0, multiplier := 2.2 } ]

/-- Expression `brackets.find(br => investmentInKSH >= br.min)`. -/
def findBracket (investmentInKSH : ℚ) : Option Bracket :=
  brackets.find? (fun br => decide (investmentInKSH ≥ br.min))

/-- Expression `brackets.find(...).multiplier`; `none` is the `TypeError` of
reading `.multiplier` of `undefined`. -/
def profitMultiplier (investmentInKSH : ℚ) : Option ℚ :=
  (findBracket investmentInKSH).map (fun br => br.multiplier)

/-- Handler of `POST /api/bots`: `name` and `investment` come from the request
body, `userId` from the verified token. -/
def postBots (db : Db) (userId : Nat) (name : String) (investment : ℚ) :
    Db × Response :=
  if ¬ (name ≠ "" ∧ 0 < investment) then (db, Response.validationErrors)
  else
    let amount := investment
    match selectUser db userId with
    | none => (db, Response.json 500 "Server error")
    | some user =>
      let investmentInKSH := convertCurrency amount user.currency "KSH"
      if amount > user.balance then (db, Response.json 400 "Insufficient balance")
      else
        match findBracket investmentInKSH with
        | none => (db, Response.json 500 "Server error")
        | some br =>
          let profitMultiplier := br.multiplier
          let totalProfitInKSH := investmentInKSH * profitMultiplier
          let dailyProfitInKSH := totalProfitInKSH / 30
          let db1 : Db :=
            { db with
              trading_bots := db.trading_bots ++
                [ { id := db.trading_bots_seq
                    user_id := userId
                    name := name
                    investment := investmentInKSH
                    daily_profit := dailyProfitInKSH
                    total_profit := totalProfitInKSH
                    progress := 0
                    image_url := "https://images.unsplash.com/photo-1639762681485-074b7f938ba0"
                    status := "active" } ]
              trading_bots_seq := db.trading_bots_seq + 1 }
          let db2 := updateUser db1 userId (fun u =>
            { u with balance := u.balance - amount, active_bots := u.active_bots + 1 })
          (db2, Response.json 201 "Trading bot created successfully")

/-! ## Bot progress: `POST /api/bots/:id/progress` (lines 1055-1114) -/

/-- Handler of `POST /api/bots/:id/progress`.  The bot row is read before the
two `UPDATE trading_bots` statements; the user row is read after them. -/
def postBotProgress (db : Db) (userId : Nat) (botId : Nat) (progress : Int) :
    Db × Response :=
  if ¬ (0 ≤ progress ∧ progress ≤ 100) then (db, Response.validationErrors)
  else
    match db.trading_bots.find? (fun b => decide (b.id = botId ∧ b.user_id = userId)) with
    | none => (db, Response.json 404 "Bot not found")
    | some bot =>
      let db1 : Db :=
        { db with
          trading_bots := db.trading_bots.map (fun b =>
            if b.id = botId then { b with progress := progress } else b) }
      if progress ≥ 100 then
        let db2 : Db :=
          { db1 with
            trading_bots := db1.trading_bots.map (fun b =>
              if b.id = botId then { b with status := "completed" } else b) }
        match selectUser db2 userId with
        | none => (db2, Response.json 500 "Server error")
        | some user =>
          let userCurrency := user.currency
          let totalProfit := convertCurrency bot.total_profit "KSH" userCurrency
          let db3 := updateUser db2 userId (fun u =>
            { u with
              balance := u.balance + totalProfit
              profit := u.profit + totalProfit
              active_bots := u.active_bots - 1 })
          let db4 := insertTransaction db3 (fun id =>
            { id := id
              user_id := userId
              type := "profit"
              method := "bot"
              amount := totalProfit
              currency := userCurrency
              status := "completed"
              address := none
              network := none })
          (db4, Response.json 200 "Bot progress updated")
      else (db1, Response.json 200 "Bot progress updated")

/-! ## Deposit request: `POST /api/deposit` (lines 633-727) -/

/-- Threshold `minDeposit` of the referral check, for a user currency. -/
def minDeposit (userCurrency : String) : ℚ :=
  if userCurrency = "KSH" then 10000 else 66.67

/-- Query `SELECT * FROM referral_bonuses WHERE referred_id = $1 AND
status = 'pending'`. -/
def pendingBonuses (db : Db) (userId : Nat) : List ReferralBonus :=
  db.referral_bonuses.filter (fun b => decide (b.referred_id = userId ∧ b.status = "pending"))

/-- The three statements run for a pending bonus (lines 679-698): mark it
completed, credit the referrer, record the bonus transaction. -/
def completeBonus (db : Db) (bonus : ReferralBonus) : Db :=
  let db1 : Db :=
    { db with
      referral_bonuses := db.referral_bonuses.map (fun b =>
        if b.id = bonus.id then { b with status := "completed" } else b) }
  let db2 := updateUser db1 bonus.referrer_id (fun u =>
    { u with balance := u.balance + bonus.amount })
  insertTransaction db2 (fun id =>
    { id := id
      user_id := bonus.referrer_id
      type := "bonus"
      method := "referral"
      amount := bonus.amount
      currency := bonus.currency
      status := "completed"
      address := none
      network := none })

/-- The referral block of the deposit handler (lines 665-701), run after the
deposit transaction was inserted: `user` is the depositor's row as read at the
start of the handler, `convertedAmount` the deposit in the user's currency. -/
def processReferral (db1 : Db) (userId : Nat) (user : User) (convertedAmount : ℚ) : Db :=
  if convertedAmount ≥ minDeposit user.currency then
    if truthy user.referred_by then
      match pendingBonuses db1 userId with
      | [] => db1
      | bonus :: _ => completeBonus db1 bonus
    else db1
  else db1

/-- Handler of `POST /api/deposit`. -/
def postDeposit (db : Db) (userId : Nat) (amount : ℚ) (method currency : String)
    (network address : Option String) : Db × Response :=
  if ¬ (0 < amount ∧ method ≠ "" ∧ (currency = "KSH" ∨ currency = "USD")) then
    (db, Response.validationErrors)
  else
    match selectUser db userId with
    | none => (db, Response.json 500 "Server error")
    | some user =>
      let convertedAmount :=
        if currency ≠ user.currency then convertCurrency amount currency user.currency
        else amount
      let db1 := insertTransaction db (fun id =>
        { id := id
          user_id := userId
          type := "deposit"
          method := method
          amount := convertedAmount
          currency := user.currency
          status := "pending"
          address := address
          network := network })
      let db2 := processReferral db1 userId user convertedAmount
      if method = "crypto" then (db2, Response.json 200 "Deposit request created")
      else (db2, Response.json 200 "Deposit request submitted")

/-! ## Withdrawal request: `POST /api/withdraw` (lines 730-796) -/

/-- Handler of `POST /api/withdraw`.  `bcryptCompare` stands for
`bcrypt.compare(password, user.password)`; `role` is the role in the token. -/
def postWithdraw (bcryptCompare : String → Option String → Bool) (db : Db)
    (userId : Nat) (role : String) (amount : ℚ) (method currency address password : String) :
    Db × Response :=
  if ¬ (0 < amount ∧ method ≠ "" ∧ (currency = "KSH" ∨ currency = "USD") ∧
        address ≠ "" ∧ password ≠ "") then
    (db, Response.validationErrors)
  else
    match selectUser db userId with
    | none => (db, Response.json 404 "User not found")
    | some user =>
      if role ≠ "demo" ∧ bcryptCompare password user.password = false then
        (db, Response.json 400 "Invalid password")
      else
        let convertedAmount :=
          if currency ≠ user.currency then convertCurrency amount currency user.currency
          else amount
        if user.balance < convertedAmount then
          (db, Response.json 400 "Insufficient balance")
        else
          let db1 := insertTransaction db (fun id =>
            { id := id
              user_id := userId
              type := "withdraw"
              method := method
              amount := convertedAmount
              currency := user.currency
              status := "pending"
              address := some address
              network := none })
          (db1, Response.json 200 "Withdrawal request submitted for approval")

/-! ## Admin routes (lines 1180-1340) -/

/-- Handler of `PUT /api/admin/transactions/:id`. -/
def putAdminTransaction (db : Db) (transactionId : Nat) (status : String) :
    Db × Response :=
  if ¬ (status = "pending" ∨ status = "completed" ∨ status = "failed") then
    (db, Response.validationErrors)
  else
    match db.transactions.find? (fun t => decide (t.id = transactionId)) with
    | none => (db, Response.json 404 "Transaction not found")
    | some transaction =>
      let db1 : Db :=
        { db with
          transactions := db.transactions.map (fun t =>
            if t.id = transactionId then { t with status := status } else t) }
      let db2 :=
        if status = "completed" ∧ transaction.type = "deposit" then
          updateUser db1 transaction.user_id (fun u =>
            { u with balance := u.balance + transaction.amount })
        else db1
      let db3 :=
        if status = "completed" ∧ transaction.type = "withdraw" then
          updateUser db2 transaction.user_id (fun u =>
            { u with balance := u.balance - transaction.amount })
        else db2
      (db3, Response.json 200 "Transaction updated successfully")

/-- Handler of `POST /api/admin/deposit`. -/
def postAdminDeposit (db : Db) (userId : Nat) (amount : ℚ) (currency : String) :
    Db × Response :=
  if ¬ (0 < amount ∧ (currency = "KSH" ∨ currency = "USD")) then
    (db, Response.validationErrors)
  else
    match selectUser db userId with
    | none => (db, Response.json 404 "User not found")
    | some targetUser =>
      let convertedAmount :=
        if currency ≠ targetUser.currency then
          convertCurrency amount currency targetUser.currency
        else amount
      let db1 := insertTransaction db (fun id =>
        { id := id
          user_id := userId
          type := "deposit"
          method := "admin"
          amount := convertedAmount
          currency := targetUser.currency
          status := "completed"
          address := none
          network := none })
      let db2 := updateUser db1 userId (fun u =>
        { u with balance := u.balance + convertedAmount })
      (db2, Response.json 200 "Deposit successful")

/-- Handler of `PUT /api/admin/users/:id/balance`. -/
def putAdminUserBalance (db : Db) (userId : Nat) (balance : ℚ) : Db × Response :=
  if ¬ (0 ≤ balance) then (db, Response.validationErrors)
  else
    match selectUser db userId with
    | none => (db, Response.json 500 "Server error")
    | some _ =>
      let db1 := updateUser db userId (fun u => { u with balance := balance })
      (db1, Response.json 200 "Balance updated successfully")

/-- One request to the ledger: the seven operations that touch a balance. -/
inductive Op where
  | botPurchase (userId : Nat) (name : String) (investment : ℚ) : Op
  | botProgress (userId botId : Nat) (progress : Int) : Op
  | deposit (userId : Nat) (amount : ℚ) (method currency : String)
      (network address : Option String) : Op
  | withdraw (userId : Nat) (role : String) (amount : ℚ)
      (method currency address password : String) : Op
  | adminTransaction (transactionId : Nat) (status : String) : Op
  | adminDeposit (userId : Nat) (amount : ℚ) (currency : String) : Op
  | adminBalance (userId : Nat) (balance : ℚ) : Op

/-- Dispatch of a request to its handler. -/
def Op.run (bcryptCompare : String → Option String → Bool) (db : Db) : Op → Db × Response
  | Op.botPurchase userId name investment => postBots db userId name investment
  | Op.botProgress userId botId progress => postBotProgress db userId botId progress
  | Op.deposit userId amount method currency network address =>
      postDeposit db userId amount method currency network address
  | Op.withdraw userId role amount method currency address password =>
      postWithdraw bcryptCompare db userId role amount method currency address password
  | Op.adminTransaction transactionId status => putAdminTransaction db transactionId status
  | Op.adminDeposit userId amount currency => postAdminDeposit db userId amount currency
  | Op.adminBalance userId balance => putAdminUserBalance db userId balance

/-- The ledger predicate `balance >= 0` for every user row. -/
def balancesNonneg (db : Db) : Prop :=
  ∀ u ∈ db.users, 0 ≤ u.balance

instance (db : Db) : Decidable (balancesNonneg db) := by
  unfold balancesNonneg
  infer_instance

/-! ## Sample stores -/

/-- A user row with the column defaults of the schema. -/
def sampleUser (id : Nat) (currency : String) (balance : ℚ) (referred_by : Option String) :
    User :=
  { id := id
    email := "user" ++ toString id ++ "@example.com"
    currency := currency
    balance := balance
    profit := 0
    active_bots := 0
    referrals := 0
    referral_code := none
    referred_by := referred_by
    role := "user"
    password := none }

/-- A store holding the given users and no other row. -/
def sampleDb (users : List User) : Db :=
  { users := users
    transactions := []
    trading_bots := []
    referral_bonuses := []
    users_seq := users.length + 1
    transactions_seq := 1
    trading_bots_seq := 1
    referral_bonuses_seq := 1 }

/-- One KSH user, id 1, with balance 10000. -/
def dbOneKsh : Db := sampleDb [sampleUser 1 "KSH" 10000 none]

/-- An active bot of user 1: 10000 KSH invested at multiplier 2.3. -/
def sampleBot : TradingBot :=
  { id := 1
    user_id := 1
    name := "alpha"
    investment := 10000
    daily_profit := 23000 / 30
    total_profit := 23000
    progress := 0
    image_url := "https://images.unsplash.com/photo-1639762681485-074b7f938ba0"
    status := "active" }

/-- The store `dbOneKsh` after user 1 bought `sampleBot`. -/
def dbOneBot : Db :=
  { sampleDb [{ sampleUser 1 "KSH" 0 none with active_bots := 1 }] with
    trading_bots := [sampleBot]
    trading_bots_seq := 2 }

/-- Two KSH users: user 1 referred user 2 (code `ab12cd34ef`), whose signup left
one pending bonus of 200 KSH for user 1. -/
def dbReferral : Db :=
  { sampleDb [ { sampleUser 1 "KSH" 200 none with
                 referral_code := some "ab12cd34ef", referrals := 1 },
               sampleUser 2 "KSH" 200 (some "ab12cd34ef") ] with
    referral_bonuses :=
      [ { id := 1
          referrer_id := 1
          referred_id := 2
          amount := 200
          currency := "KSH"
          status := "pending" } ]
    referral_bonuses_seq := 2 }

/-- A pending deposit request of user 1 for 5000 KSH. -/
def sampleDeposit : Transaction :=
  { id := 1
    user_id := 1
    type := "deposit"
    method := "mpesa"
    amount := 5000
    currency := "KSH"
    status := "pending"
    address := none
    network := none }

/-- The store `dbOneKsh` after user 1 requested the deposit `sampleDeposit`. -/
def dbPendingDeposit : Db :=
  { dbOneKsh with
    transactions := [sampleDeposit]
    transactions_seq := 2 }

/-- The bot predicate "status `completed` implies progress 100", for every row. -/
def completedAtFull (db : Db) : Prop :=
  ∀ b ∈ db.trading_bots, b.status = "completed" → b.progress = 100

instance (db : Db) : Decidable (completedAtFull db) := by
  unfold completedAtFull
  infer_instance

/-- The balance of the user with the given id, when the row exists. -/
def balanceOf (db : Db) (userId : Nat) : Option ℚ :=
  (selectUser db userId).map (fun u => u.balance)

/-- The signed amount of a transaction row: a `withdraw` row is a debit, every
other type (`deposit`, `bonus`, `profit`) a credit. -/
def signedAmount (t : Transaction) : ℚ :=
  if t.type = "withdraw" then - t.amount else t.amount

/-- The transaction rows of a user that a step from `db` to `db1` created or
completed: the completed rows of the user in `db1` that are not rows of `db`. -/
def recordedRows (db db1 : Db) (userId : Nat) : List Transaction :=
  db1.transactions.filter (fun t =>
    decide (t.user_id = userId ∧ t.status = "completed" ∧ t ∉ db.transactions))

/-- The operations that record their balance change in `transactions`: the
progress update, the deposit request (referral credit), the admin deposit, and
the admin status update of a transaction that is not yet completed. -/
def Op.recorded (db : Db) : Op → Prop
  | Op.botProgress _ _ _ => True
  | Op.deposit _ _ _ _ _ _ => True
  | Op.adminDeposit _ _ _ => True
  | Op.adminTransaction transactionId _ =>
      ∀ t ∈ db.transactions, t.id = transactionId → t.status ≠ "completed"
  | Op.botPurchase _ _ _ => False
  | Op.withdraw _ _ _ _ _ _ _ => False
  | Op.adminBalance _ _ => False

/-- The primary key of `transactions`: ids are distinct and were all drawn
from the sequence. -/
def transactionsKeyed (db : Db) : Prop :=
  (db.transactions.map (fun t => t.id)).Nodup ∧
  ∀ t ∈ db.transactions, t.id < db.transactions_seq

instance (db : Db) : Decidable (transactionsKeyed db) := by
  unfold transactionsKeyed
  infer_instance

instance (db : Db) (op : Op) : Decidable (Op.recorded db op) := by
  cases op <;> unfold Op.recorded <;> infer_instance

/-- Run a sequence of requests, keeping the store and dropping the responses. -/
def runOps (bcryptCompare : String → Option String → Bool) (db : Db) (ops : List Op) : Db :=
  ops.foldl (fun d op => (op.run bcryptCompare d).1) db

/-- A password check that accepts every password. -/
def acceptAll : String → Option String → Bool := fun _ _ => true

/-- A password check that rejects every password. -/
def rejectAll : String → Option String → Bool := fun _ _ => false

/-! ## Signup: `POST /api/auth/signup` (lines 349-446) -/

/-- Sign-up bonus `bonusAmount` for the new user's currency. -/
def bonusAmount (currency : String) : ℚ :=
  if currency = "USD" then 1.33 else 200

/-- The row of `INSERT INTO users ...` (lines 384-388); the columns `name`,
`phone` and `country` are not kept in the store. -/
def newUserRow (userId : Nat) (email currency referralCodeNew : String)
    (referralCode hashedPassword : Option String) (isDemo : Bool) : User :=
  { id := userId
    email := email
    currency := currency
    balance := if isDemo then 66.67 else bonusAmount currency
    profit := 0
    active_bots := 0
    referrals := 0
    referral_code := some referralCodeNew
    referred_by := referralCode
    role := if isDemo then "demo" else "user"
    password := hashedPassword }

/-- The referral block of the signup handler (lines 402-427), run after the
new user row (id `userId`) and the sign-up bonus transaction were inserted. -/
def recordReferral (db2 : Db) (userId : Nat) (currency : String)
    (referralCode : Option String) (isDemo : Bool) : Db :=
  if truthy referralCode ∧ ¬ isDemo then
    match db2.users.find? (fun u => decide (u.referral_code = referralCode)) with
    | none => db2
    | some referrer =>
      let referrerId := referrer.id
      let referrerCurrency := referrer.currency
      let referralBonus :=
        if currency ≠ referrerCurrency then
          convertCurrency (bonusAmount currency) currency referrerCurrency
        else bonusAmount currency
      let db3 : Db :=
        { db2 with
          referral_bonuses := db2.referral_bonuses ++
            [ { id := db2.referral_bonuses_seq
                referrer_id := referrerId
                referred_id := userId
                amount := referralBonus
                currency := referrerCurrency
                status := "pending" } ]
          referral_bonuses_seq := db2.referral_bonuses_seq + 1 }
      updateUser db3 referrerId (fun u => { u with referrals := u.referrals + 1 })
  else db2

/-- Handler of `POST /api/auth/signup`.  `isEmail` and `isMobilePhone` stand
for the validators of the same name, `bcryptHash` for `bcrypt.hash`,
`randomCode` for `crypto.randomBytes(5).toString('hex')`; `currencyField` is
the optional body field whose default is `'KSH'`.  The `INSERT INTO users`
fails on the `UNIQUE` constraint of `referral_code` when the new code is taken. -/
def postSignup (isEmail isMobilePhone : String → Bool) (bcryptHash : String → String)
    (randomCode : String) (db : Db) (name email password : String)
    (phone country currencyField referralCode : Option String) (isDemo : Bool) :
    Db × Response :=
  if ¬ (name ≠ "" ∧ isEmail email = true ∧ 8 ≤ password.length ∧
        phone.all isMobilePhone = true ∧
        country.all (fun c => decide (2 ≤ c.length)) = true ∧
        currencyField.all (fun c => decide (c = "KSH" ∨ c = "USD")) = true) then
    (db, Response.validationErrors)
  else
    let currency := currencyField.getD "KSH"
    if db.users.any (fun u => decide (u.email = email)) then
      (db, Response.json 400 "User already exists")
    else
      let hashedPassword := if isDemo then none else some (bcryptHash password)
      let referralCodeNew := randomCode
      if db.users.any (fun u => decide (u.referral_code = some referralCodeNew)) then
        (db, Response.json 500 "Server error")
      else
        let userId := db.users_seq
        let db1 : Db :=
          { db with
            users := db.users ++
              [newUserRow userId email currency referralCodeNew referralCode hashedPassword
                isDemo]
            users_seq := db.users_seq + 1 }
        let db2 :=
          if ¬ isDemo then
            insertTransaction db1 (fun id =>
              { id := id
                user_id := userId
                type := "bonus"
                method := "signup"
                amount := bonusAmount currency
                currency := currency
                status := "completed"
                address := none
                network := none })
          else db1
        let db3 := recordReferral db2 userId currency referralCode isDemo
        (db3, Response.json 201
          (if isDemo then "Demo account created successfully"
           else "User created successfully"))

/-- A validator stub that accepts every string. -/
def anyString : String → Bool := fun _ => true

/-- One KSH user, id 1, balance 200, who owns the code `ab12cd34ef`. -/
def dbCodeOwner : Db :=
  sampleDb [{ sampleUser 1 "KSH" 200 none with referral_code := some "ab12cd34ef" }]

/-! ## The admin server: `src/servers/adminServer.js` -/

namespace AdminServer

/-- Modelled from the spec: the stored procedure `increment_user_balance`
called through `supabase.rpc` is not in the repository; it is taken as the
Ledger Engine's credit, adding `amount` to the balance of user `user_id`. -/
def increment_user_balance (db : Db) (user_id : Nat) (amount : ℚ) : Db :=
  updateUser db user_id (fun u => { u with balance := u.balance + amount })

/-- Handler of `PUT /api/admin/transactions/:id/status` (lines 321-357): the
update runs first and returns the updated rows as `data`; the status is not
validated. -/
def putTransactionStatus (db : Db) (id : Nat) (status : String) : Db × Response :=
  let db1 : Db :=
    { db with
      transactions := db.transactions.map (fun t =>
        if t.id = id then { t with status := status } else t) }
  let data := db1.transactions.filter (fun t => decide (t.id = id))
  match data with
  | [] => (db1, Response.json 404 "Transaction not found")
  | transaction :: _ =>
    let db2 :=
      if status = "completed" then
        if transaction.type = "deposit" then
          increment_user_balance db1 transaction.user_id transaction.amount
        else db1
      else db1
    (db2, Response.json 200 ("Transaction " ++ status ++ " successfully"))

end AdminServer

/-- A pending withdrawal request of user 1 for 4000 KSH. -/
def sampleWithdraw : Transaction :=
  { id := 1
    user_id := 1
    type := "withdraw"
    method := "mpesa"
    amount := 4000
    currency := "KSH"
    status := "pending"
    address := some "0712345678"
    network := none }

/-- The store `dbOneKsh` after user 1 requested the withdrawal `sampleWithdraw`. -/
def dbPendingWithdraw : Db :=
  { dbOneKsh with
    transactions := [sampleWithdraw]
    transactions_seq := 2 }

/-! ## Authentication middleware -/

/-- The decoded payload of a token, as signed by `generateToken`. -/
structure TokenPayload where
  userId : Nat
  role : String
deriving DecidableEq

/-- What a middleware does with a request: call `next()` with `req.user` set,
or answer with a status and a message. -/
inductive AuthResult where
  | next (user : TokenPayload) : AuthResult
  | reject (status : Nat) (message : String) : AuthResult
deriving DecidableEq

/-- Helper of `splitOnSpace`: `cur` holds the current piece, reversed. -/
def splitOnSpaceAux (cur : List Char) : List Char → List (List Char)
  | [] => [cur.reverse]
  | c :: cs =>
    if c = ' ' then cur.reverse :: splitOnSpaceAux [] cs
    else splitOnSpaceAux (c :: cur) cs

/-- Expression `authHeader.split(' ')`, on the characters of the header. -/
def splitOnSpace (s : String) : List String :=
  (splitOnSpaceAux [] s.toList).map String.mk

/-- Middleware `authenticateToken` of `server.js` (lines 269-280);
`jwtVerify token` stands for `jwt.verify(token, JWT_SECRET)`, `none` when it
reports an error. -/
def authenticateToken (jwtVerify : String → Option TokenPayload)
    (authorization : Option String) : AuthResult :=
  match authorization with
  | none => AuthResult.reject 401 "Authentication required"
  | some authHeader =>
    if authHeader = "" then AuthResult.reject 401 "Authentication required"
    else
      match (splitOnSpace authHeader).get? 1 with
      | none => AuthResult.reject 401 "Authentication required"
      | some token =>
        if token = "" then AuthResult.reject 401 "Authentication required"
        else
          match jwtVerify token with
          | none => AuthResult.reject 403 "Invalid token"
          | some user => AuthResult.next user

/-- Middleware `authenticateAdmin` of `server.js` (lines 282-289). -/
def authenticateAdmin (jwtVerify : String → Option TokenPayload)
    (authorization : Option String) : AuthResult :=
  match authenticateToken jwtVerify authorization with
  | AuthResult.next user =>
    if user.role ≠ "admin" then AuthResult.reject 403 "Admin access required"
    else AuthResult.next user
  | AuthResult.reject status message => AuthResult.reject status message

/-- Middleware `authenticateAdmin` of `adminServer.js` (lines 96-114). -/
def AdminServer.authenticateAdmin (jwtVerify : String → Option TokenPayload)
    (authorization : Option String) : AuthResult :=
  match authorization with
  | none => AuthResult.reject 401 "Authentication required"
  | some authHeader =>
    if authHeader = "" ∨ ¬ ("Bearer ".toList.isPrefixOf authHeader.toList = true) then
      AuthResult.reject 401 "Authentication required"
    else
      let token := String.mk (authHeader.toList.drop 7)
      match jwtVerify token with
      | none => AuthResult.reject 401 "Invalid or expired token"
      | some decoded => AuthResult.next decoded

/-- A verifier that knows one token, `usertoken`, signed for user 7 with role
`user`. -/
def verifyUserToken : String → Option TokenPayload := fun token =>
  if token = "usertoken" then some { userId := 7, role := "user" } else none

/-! ## The demo trader: `src/public/js/demo.js` -/

namespace ForexDemoTrader

/-- One entry of `this.data.bots` (id, creation time and image are not kept). -/
structure Bot where
  name : String
  investment : ℚ
  dailyProfit : ℚ
  totalProfit : ℚ
  progress : ℚ
deriving DecidableEq

/-- The object `this.data` (the trade history is not kept). -/
structure Data where
  balance : ℚ
  profit : ℚ
  bots : List Bot
  timeSpeed : ℚ
deriving DecidableEq

/-- The initial `this.data` of the constructor. -/
def initial : Data :=
  { balance := 10000
    profit := 0
    bots := []
    timeSpeed := 1 }

/-- Method `createBot(name, investment)`: the new data and the returned flag. -/
def createBot (data : Data) (name : String) (investment : ℚ) : Data × Bool :=
  if data.balance < investment then (data, false)
  else
    let totalReturn := investment * 2.25
    let dailyProfit := totalReturn / 30
    let bot : Bot :=
      { name := if name = "" then "AI Bot #" ++ toString (data.bots.length + 1) else name
        investment := investment
        dailyProfit := dailyProfit
        totalProfit := totalReturn
        progress := 0 }
    ({ data with bots := data.bots ++ [bot], balance := data.balance - investment }, true)

/-- The body of the `forEach` of `updateBotProgress` for one bot: the bot
afterwards and what it adds to `totalEarned`. -/
def tickBot (timeSpeed : ℚ) (bot : Bot) : Bot × ℚ :=
  if bot.progress ≥ 100 then (bot, 0)
  else
    let increment := 0.1 * timeSpeed
    let earnedThisTick := bot.dailyProfit * increment / (100 / increment)
    ({ bot with progress := min 100 (bot.progress + increment) }, earnedThisTick)

/-- Method `updateBotProgress()`, one tick of the 100 ms interval. -/
def updateBotProgress (data : Data) : Data :=
  if data.bots.length = 0 then data
  else
    let result := data.bots.foldl
      (fun (acc : List Bot × ℚ) bot =>
        (acc.1 ++ [(tickBot data.timeSpeed bot).1], acc.2 + (tickBot data.timeSpeed bot).2))
      ([], 0)
    let totalEarned := result.2
    if totalEarned > 0 then
      { data with
        bots := result.1
        balance := data.balance + totalEarned
        profit := data.profit + totalEarned }
    else { data with bots := result.1 }

/-- The data after `n` ticks. -/
def ticks (n : Nat) (data : Data) : Data :=
  Nat.iterate updateBotProgress n data

end ForexDemoTrader

/-! ## Pagination of the admin lists (`adminServer.js`, lines 172-200, 255-267,
360-372, 497-509)

The fragment of JavaScript values the range computation needs: the integer
numbers a double holds exactly (magnitude at most `2 ^ 53`, with `-0`
identified with `0`: the two print alike), strings, and `NaN`.  Conversion of
a string to a number is described for the strings written with the characters
`-`, `0` to `9`, `N` and `a` only: such a string is a decimal integer literal
(the empty string converts to 0) or converts to `NaN`.  Any other string
(`1e1`, `2.5`, ` 5`, `0x10`, `Infinity`) and any number that is not such an
integer is the value `outside`, about which the fragment says nothing; an
operation with an operand `outside` is `outside`. -/

/-- A JavaScript value of the fragment. -/
inductive JsValue where
  | num (n : Int) : JsValue
  | str (s : String) : JsValue
  | nan : JsValue
  | outside : JsValue
deriving DecidableEq

/-- The characters of the strings whose conversion to a number the fragment
describes. -/
def inFragment (c : Char) : Bool :=
  c = '-' || c.isDigit || c = 'N' || c = 'a'

/-- An integer as a number of the fragment: `outside` beyond the range in
which every integer is a double. -/
def JsValue.ofInt (n : Int) : JsValue :=
  if n.natAbs ≤ 2 ^ 53 then JsValue.num n else JsValue.outside

/-- The value of a string of decimal digits, `none` when a character is not a
digit. -/
def parseDigits : List Char → Option Nat
  | [] => some 0
  | cs => cs.foldl
      (fun acc c =>
        match acc with
        | none => none
        | some n => if c.isDigit then some (n * 10 + (c.toNat - '0'.toNat)) else none)
      (some 0)

/-- Conversion `ToNumber` on the fragment: the result is `num`, `nan` or
`outside`. -/
def JsValue.toNumber : JsValue → JsValue
  | JsValue.num n => JsValue.ofInt n
  | JsValue.nan => JsValue.nan
  | JsValue.outside => JsValue.outside
  | JsValue.str s =>
    if s.toList.all inFragment then
      match s.toList with
      | '-' :: d :: ds =>
        match parseDigits (d :: ds) with
        | some n => JsValue.ofInt (- (n : Int))
        | none => JsValue.nan
      | cs =>
        match parseDigits cs with
        | some n => JsValue.ofInt (n : Int)
        | none => JsValue.nan
    else JsValue.outside

/-- Conversion `ToString` of an integer number of the fragment. -/
def numberToString (n : Int) : String :=
  if n < 0 then "-" ++ String.mk (Nat.toDigits 10 n.natAbs)
  else String.mk (Nat.toDigits 10 n.natAbs)

/-- Operator `a - b`: both operands are converted to numbers. -/
def JsValue.sub (a b : JsValue) : JsValue :=
  match a.toNumber, b.toNumber with
  | JsValue.num x, JsValue.num y => JsValue.ofInt (x - y)
  | JsValue.nan, JsValue.num _ => JsValue.nan
  | JsValue.num _, JsValue.nan => JsValue.nan
  | JsValue.nan, JsValue.nan => JsValue.nan
  | _, _ => JsValue.outside

/-- Operator `a * b`: both operands are converted to numbers. -/
def JsValue.mul (a b : JsValue) : JsValue :=
  match a.toNumber, b.toNumber with
  | JsValue.num x, JsValue.num y => JsValue.ofInt (x * y)
  | JsValue.nan, JsValue.num _ => JsValue.nan
  | JsValue.num _, JsValue.nan => JsValue.nan
  | JsValue.nan, JsValue.nan => JsValue.nan
  | _, _ => JsValue.outside

/-- Operator `a + b`: string concatenation as soon as one operand is a
string, numeric addition otherwise. -/
def JsValue.add (a b : JsValue) : JsValue :=
  match a, b with
  | JsValue.str s, JsValue.str t => JsValue.str (s ++ t)
  | JsValue.str s, JsValue.nan => JsValue.str (s ++ "NaN")
  | JsValue.nan, JsValue.str t => JsValue.str ("NaN" ++ t)
  | JsValue.str s, JsValue.num y =>
    match JsValue.ofInt y with
    | JsValue.num y1 => JsValue.str (s ++ numberToString y1)
    | _ => JsValue.outside
  | JsValue.num x, JsValue.str t =>
    match JsValue.ofInt x with
    | JsValue.num x1 => JsValue.str (numberToString x1 ++ t)
    | _ => JsValue.outside
  | JsValue.num x, JsValue.num y =>
    match JsValue.ofInt x, JsValue.ofInt y with
    | JsValue.num x1, JsValue.num y1 => JsValue.ofInt (x1 + y1)
    | _, _ => JsValue.outside
  | JsValue.num x, JsValue.nan =>
    match JsValue.ofInt x with
    | JsValue.num _ => JsValue.nan
    | _ => JsValue.outside
  | JsValue.nan, JsValue.num y =>
    match JsValue.ofInt y with
    | JsValue.num _ => JsValue.nan
    | _ => JsValue.outside
  | JsValue.nan, JsValue.nan => JsValue.nan
  | JsValue.outside, _ => JsValue.outside
  | _, JsValue.outside => JsValue.outside

/-- A field of `req.query` with a numeric default: the parsed query string
holds strings, an absent field takes the default. -/
def queryField (field : Option String) (default : Int) : JsValue :=
  match field with
  | none => JsValue.num default
  | some s => JsValue.str s

/-- The arguments of `.range(offset, offset + limit - 1)` of the four admin
list routes, with `const { page = 1, limit = 20 } = req.query` and
`offset = (page - 1) * limit`. -/
def AdminServer.listRange (pageField limitField : Option String) : JsValue × JsValue :=
  let page := queryField pageField 1
  let limit := queryField limitField 20
  let offset := ((page.sub (JsValue.num 1)).mul limit)
  (offset, (offset.add limit).sub (JsValue.num 1))

/-! ## Theorems -/

/-- In a table sorted by descending minimum, the first row whose minimum is at
most `x` is a row with the highest such minimum. -/
theorem find?_sorted_highest (l : List Bracket)
    (hs : l.Pairwise (fun a b => b.min ≤ a.min)) (x : ℚ) (br : Bracket)
    (h : l.find? (fun b => decide (x ≥ b.min)) = some br) :
    br ∈ l ∧ br.min ≤ x ∧ ∀ b ∈ l, b.min ≤ x → b.min ≤ br.min := by
  induction l with
  | nil => simp at h
  | cons a l ih =>
    rw [List.pairwise_cons] at hs
    by_cases ha : a.min ≤ x
    · have hbr : a = br := by simpa [List.find?_cons, ha] using h
      subst hbr
      refine ⟨List.mem_cons_self _ _, ha, ?_⟩
      intro b hb _
      rcases List.mem_cons.mp hb with rfl | hb
      · exact le_refl _
      · exact hs.1 b hb
    · have hl : l.find? (fun b => decide (x ≥ b.min)) = some br := by
        simpa [List.find?_cons, ha] using h
      obtain ⟨hmem, hle, hmax⟩ := ih hs.2 hl
      refine ⟨List.mem_cons_of_mem _ hmem, hle, ?_⟩
      intro b hb hbx
      rcases List.mem_cons.mp hb with rfl | hb
      · exact absurd hbx ha
      · exact hmax b hb hbx

/-- The bracket table is sorted by descending minimum. -/
theorem brackets_sorted : brackets.Pairwise (fun a b => b.min ≤ a.min) := by
  simp [brackets]
  norm_num

/-- No two rows of the bracket table have the same minimum. -/
theorem brackets_min_nodup : (brackets.map (fun b => b.min)).Nodup := by
  simp [brackets]

/-- The lookup finds a bracket for every non-negative investment. -/
theorem findBracket_isSome (x : ℚ) (hx : 0 ≤ x) : ∃ br, findBracket x = some br := by
  have h : (findBracket x).isSome = true := by
    rw [findBracket, List.find?_isSome]
    exact ⟨⟨0, 2.2⟩, by simp [brackets], by simpa using hx⟩
  exact Option.isSome_iff_exists.mp h

/-- C1: for every investment `x ≥ 0` in KSH the bracket chosen by
`brackets.find` is a row of the table whose minimum is at most `x` and is the
highest such minimum (the only row with that minimum), and the multiplier used
is the multiplier of that row; the table is the one of the specification; the
boundary values are `multiplier(99999) = 2.8`, `multiplier(100000) = 2.5`,
`multiplier(1999) = 2.2`, `multiplier(2000) = 2.33`, so the multiplier is not
monotonic in `x`. -/
theorem findBracket_highest_min (x : ℚ) (hx : 0 ≤ x) :
    (∃ br, findBracket x = some br ∧ profitMultiplier x = some br.multiplier ∧
        br ∈ brackets ∧ br.min ≤ x ∧
        (∀ b ∈ brackets, b.min ≤ x → b.min ≤ br.min) ∧
        ∀ b ∈ brackets, b.min = br.min → b = br) ∧
    brackets.map (fun b => (b.min, b.multiplier)) =
      [(100000, 2.5), (70000, 2.8), (50000, 2.25), (45000, 2.3), (40000, 2.3),
       (30000, 2.6), (20000, 2.5), (15000, 2.4), (10000, 2.3), (7000, 2.65),
       (2000, 2.33), (0, 2.2)] ∧
    profitMultiplier 99999 = some 2.8 ∧
    profitMultiplier 100000 = some 2.5 ∧
    profitMultiplier 1999 = some 2.2 ∧
    profitMultiplier 2000 = some 2.33 ∧
    ¬ (∀ a b : ℚ, 0 ≤ a → a ≤ b → ∀ ma mb, profitMultiplier a = some ma →
        profitMultiplier b = some mb → ma ≤ mb) := by
  refine ⟨?_, by simp [brackets], ?_, ?_, ?_, ?_, ?_⟩
  · obtain ⟨br, hbr⟩ := findBracket_isSome x hx
    obtain ⟨hmem, hle, hmax⟩ := find?_sorted_highest brackets brackets_sorted x br hbr
    refine ⟨br, hbr, by simp [profitMultiplier, hbr], hmem, hle, hmax, ?_⟩
    intro b hb hmin
    exact List.inj_on_of_nodup_map brackets_min_nodup hb hmem hmin
  · simp [profitMultiplier, findBracket, brackets, List.find?]; norm_num
  · simp [profitMultiplier, findBracket, brackets, List.find?]
  · simp [profitMultiplier, findBracket, brackets, List.find?]; norm_num
  · simp [profitMultiplier, findBracket, brackets, List.find?]; norm_num
  · intro h
    have h1 : profitMultiplier 99999 = some 2.8 := by
      simp [profitMultiplier, findBracket, brackets, List.find?]; norm_num
    have h2 : profitMultiplier 100000 = some 2.5 := by
      simp [profitMultiplier, findBracket, brackets, List.find?]
    have := h 99999 100000 (by norm_num) (by norm_num) _ _ h1 h2
    norm_num at this

/-- C2: when a bot purchase succeeds (response 201) the handler stores one new
bot whose `total_profit` is its `investment` (the amount in KSH) times the
multiplier selected for it and whose `daily_profit` is `total_profit / 30`;
for a KSH user investing 10000 the stored values are 23000 and 23000/30. -/
theorem postBots_stored_profit (db : Db) (userId : Nat) (name : String) (investment : ℚ)
    (h : (postBots db userId name investment).2 =
      Response.json 201 "Trading bot created successfully") :
    ∃ user m bot, selectUser db userId = some user ∧
      profitMultiplier (convertCurrency investment user.currency "KSH") = some m ∧
      (postBots db userId name investment).1.trading_bots = db.trading_bots ++ [bot] ∧
      bot.investment = convertCurrency investment user.currency "KSH" ∧
      bot.total_profit = bot.investment * m ∧
      bot.daily_profit = bot.total_profit / 30 ∧
      (user.currency = "KSH" → investment = 10000 →
        bot.total_profit = 23000 ∧ bot.daily_profit = 23000 / 30) := by
  by_cases hv : name ≠ "" ∧ 0 < investment
  · cases hu : selectUser db userId with
    | none => simp [postBots, hv, hu] at h
    | some user =>
      by_cases hb : investment > user.balance
      · simp [postBots, hv, hu, hb] at h
      · cases hf : findBracket (convertCurrency investment user.currency "KSH") with
        | none => simp [postBots, hv, hu, hb, hf] at h
        | some br =>
          refine ⟨user, br.multiplier,
            { id := db.trading_bots_seq
              user_id := userId
              name := name
              investment := convertCurrency investment user.currency "KSH"
              daily_profit :=
                convertCurrency investment user.currency "KSH" * br.multiplier / 30
              total_profit := convertCurrency investment user.currency "KSH" * br.multiplier
              progress := 0
              image_url := "https://images.unsplash.com/photo-1639762681485-074b7f938ba0"
              status := "active" },
            rfl, by simp [profitMultiplier, hf], ?_, rfl, rfl, rfl, ?_⟩
          · simp [postBots, hv, hu, hb, hf, updateUser]
          · intro hc hi
            subst hi
            have hf2 : findBracket 10000 = some br := by
              simpa [hc, convertCurrency] using hf
            have : br = ⟨10000, 2.3⟩ := by
              have : findBracket 10000 = some ⟨10000, 2.3⟩ := by
                simp [findBracket, brackets, List.find?]
                norm_num
              rw [this] at hf2
              exact (Option.some.inj hf2).symm
            subst this
            simp [hc, convertCurrency]
            norm_num
  · simp [postBots, hv] at h

/-- Witness of C1 at `x = 45000`. -/
theorem findBracket_highest_min_witness :
    (0 : ℚ) ≤ 45000 ∧
    ∃ br, findBracket 45000 = some br ∧ profitMultiplier 45000 = some br.multiplier ∧
      br ∈ brackets ∧ br.min ≤ 45000 ∧
      (∀ b ∈ brackets, b.min ≤ 45000 → b.min ≤ br.min) ∧
      ∀ b ∈ brackets, b.min = br.min → b = br :=
  ⟨by norm_num, (findBracket_highest_min 45000 (by norm_num)).1⟩

/-- Witness of C2: the KSH user of `dbOneKsh` invests 10000. -/
theorem postBots_stored_profit_witness :
    (postBots dbOneKsh 1 "alpha" 10000).2 =
      Response.json 201 "Trading bot created successfully" ∧
    ∃ user m bot, selectUser dbOneKsh 1 = some user ∧
      profitMultiplier (convertCurrency 10000 user.currency "KSH") = some m ∧
      (postBots dbOneKsh 1 "alpha" 10000).1.trading_bots = dbOneKsh.trading_bots ++ [bot] ∧
      bot.investment = convertCurrency 10000 user.currency "KSH" ∧
      bot.total_profit = bot.investment * m ∧
      bot.daily_profit = bot.total_profit / 30 ∧
      (user.currency = "KSH" → (10000 : ℚ) = 10000 →
        bot.total_profit = 23000 ∧ bot.daily_profit = 23000 / 30) :=
  have h : (postBots dbOneKsh 1 "alpha" 10000).2 =
      Response.json 201 "Trading bot created successfully" := by
    simp [postBots, dbOneKsh, sampleDb, sampleUser, selectUser, convertCurrency, findBracket,
      brackets, List.find?]
    norm_num
  ⟨h, postBots_stored_profit dbOneKsh 1 "alpha" 10000 h⟩

/-- C3: when the requested investment is strictly greater than the user's
balance, the bot purchase answers `400 Insufficient balance` and the store is
left exactly as it was: no bot row is created and the user's `balance` and
`active_bots` are unchanged.  The request is one that passes the validators
(non-empty name, positive investment). -/
theorem postBots_insufficient_balance (db : Db) (userId : Nat) (name : String)
    (investment : ℚ) (user : User) (hname : name ≠ "") (hpos : 0 < investment)
    (hu : selectUser db userId = some user) (hgt : investment > user.balance) :
    postBots db userId name investment = (db, Response.json 400 "Insufficient balance") ∧
    (postBots db userId name investment).1.trading_bots = db.trading_bots ∧
    selectUser (postBots db userId name investment).1 userId = some user := by
  have h : postBots db userId name investment =
      (db, Response.json 400 "Insufficient balance") := by
    simp [postBots, hname, hpos, hu, hgt]
  rw [h]
  exact ⟨rfl, rfl, hu⟩

/-- Witness of C3: the user of `dbOneKsh` (balance 10000) asks for 10001. -/
theorem postBots_insufficient_balance_witness :
    postBots dbOneKsh 1 "alpha" 10001 = (dbOneKsh, Response.json 400 "Insufficient balance") :=
  (postBots_insufficient_balance dbOneKsh 1 "alpha" 10001 (sampleUser 1 "KSH" 10000 none)
    (by decide) (by norm_num) (by simp [selectUser, dbOneKsh, sampleDb, sampleUser])
    (by simp [sampleUser]; norm_num)).1

/-! ### Lookups after an update -/

/-- A row update that keeps what the predicate reads commutes with `find?`. -/
theorem find?_map_of_stable {α : Type} (l : List α) (p : α → Bool) (f : α → α)
    (hp : ∀ x, p (f x) = p x) : (l.map f).find? p = (l.find? p).map f := by
  rw [List.find?_map]
  have : (p ∘ f) = p := funext hp
  rw [this]

/-- Reading a user after `UPDATE users ... WHERE id`, when the update keeps ids. -/
theorem selectUser_updateUser (db : Db) (userId : Nat) (g : User → User) (uid : Nat)
    (hg : ∀ u, (g u).id = u.id) :
    selectUser (updateUser db userId g) uid =
      (selectUser db uid).map (fun u => if u.id = userId then g u else u) := by
  unfold selectUser updateUser
  apply find?_map_of_stable
  intro u
  by_cases h : u.id = userId <;> simp [h, hg]

/-- C4 (the code breaks it): after a withdrawal request for the full balance
and its completion by the admin every balance is non-negative, and completing
the same transaction once more drives the user's balance below zero. -/
theorem putAdminTransaction_breaks_balancesNonneg :
    balancesNonneg dbOneKsh ∧
    balancesNonneg (runOps acceptAll dbOneKsh
      [Op.withdraw 1 "user" 10000 "mpesa" "KSH" "0712345678" "secret",
       Op.adminTransaction 1 "completed"]) ∧
    ¬ balancesNonneg (Op.run acceptAll (runOps acceptAll dbOneKsh
      [Op.withdraw 1 "user" 10000 "mpesa" "KSH" "0712345678" "secret",
       Op.adminTransaction 1 "completed"]) (Op.adminTransaction 1 "completed")).1 ∧
    (selectUser (Op.run acceptAll (runOps acceptAll dbOneKsh
      [Op.withdraw 1 "user" 10000 "mpesa" "KSH" "0712345678" "secret",
       Op.adminTransaction 1 "completed"]) (Op.adminTransaction 1 "completed")).1 1).map
      (fun u => u.balance) = some (-10000) := by
  refine ⟨?_, ?_, ?_, ?_⟩ <;>
    simp [balancesNonneg, runOps, Op.run, acceptAll, postWithdraw, putAdminTransaction,
      dbOneKsh, sampleDb, sampleUser, selectUser, updateUser, insertTransaction]

/-- C5: when the caller owns bot `botId` and sets its progress to 100, the
handler answers 200, sets the bot's progress to 100 and its status to
`completed`, adds `total_profit` converted from KSH to the user's currency to
the user's `balance` and `profit`, takes 1 off `active_bots`, and appends
exactly one `profit` transaction, completed, with that amount and the user's
currency. -/
theorem postBotProgress_completion (db : Db) (userId botId : Nat) (bot : TradingBot)
    (user : User)
    (hb : db.trading_bots.find? (fun b => decide (b.id = botId ∧ b.user_id = userId)) =
      some bot)
    (hu : selectUser db userId = some user) :
    (postBotProgress db userId botId 100).2 = Response.json 200 "Bot progress updated" ∧
    (postBotProgress db userId botId 100).1.trading_bots =
      db.trading_bots.map (fun b =>
        if b.id = botId then { b with progress := 100, status := "completed" } else b) ∧
    (postBotProgress db userId botId 100).1.trading_bots.find?
        (fun b => decide (b.id = botId ∧ b.user_id = userId)) =
      some { bot with progress := 100, status := "completed" } ∧
    selectUser (postBotProgress db userId botId 100).1 userId =
      some { user with
        balance := user.balance + convertCurrency bot.total_profit "KSH" user.currency
        profit := user.profit + convertCurrency bot.total_profit "KSH" user.currency
        active_bots := user.active_bots - 1 } ∧
    (postBotProgress db userId botId 100).1.transactions =
      db.transactions ++
        [ { id := db.transactions_seq
            user_id := userId
            type := "profit"
            method := "bot"
            amount := convertCurrency bot.total_profit "KSH" user.currency
            currency := user.currency
            status := "completed"
            address := none
            network := none } ] := by
  have hid : user.id = userId := by
    have := List.find?_some hu
    simpa using this
  have hbid : bot.id = botId := by
    have := List.find?_some hb
    simp at this
    exact this.1
  have hu1 : db.users.find? (fun u => decide (u.id = userId)) = some user := hu
  have hmap : (db.trading_bots.map (fun b =>
        if b.id = botId then { b with progress := 100 } else b)).map (fun b =>
        if b.id = botId then { b with status := "completed" } else b) =
      db.trading_bots.map (fun b =>
        if b.id = botId then { b with progress := 100, status := "completed" } else b) := by
    rw [List.map_map]
    apply List.map_congr_left
    intro b _
    by_cases h : b.id = botId <;> simp [h]
  have hbots : (postBotProgress db userId botId 100).1.trading_bots =
      db.trading_bots.map (fun b =>
        if b.id = botId then { b with progress := 100, status := "completed" } else b) := by
    simp only [postBotProgress, hb, selectUser, hu1]
    simpa [insertTransaction, updateUser] using hmap
  refine ⟨?_, hbots, ?_, ?_, ?_⟩
  · simp only [postBotProgress, hb, selectUser, hu1]
    simp
  · rw [hbots, find?_map_of_stable, hb]
    · simp [hbid]
    · intro b
      by_cases h : b.id = botId <;> simp [h]
  · have husers : (postBotProgress db userId botId 100).1.users =
        db.users.map (fun u =>
          if u.id = userId then
            { u with
              balance := u.balance + convertCurrency bot.total_profit "KSH" user.currency
              profit := u.profit + convertCurrency bot.total_profit "KSH" user.currency
              active_bots := u.active_bots - 1 }
          else u) := by
      simp only [postBotProgress, hb, selectUser, hu1]
      simp [insertTransaction, updateUser]
    unfold selectUser
    rw [husers, find?_map_of_stable, hu1]
    · simp [hid]
    · intro u
      by_cases h : u.id = userId <;> simp [h]
  · simp only [postBotProgress, hb, selectUser, hu1]
    simp [insertTransaction, updateUser]

/-- Witness of C5: user 1 of `dbOneBot` completes `sampleBot`. -/
theorem postBotProgress_completion_witness :
    (postBotProgress dbOneBot 1 1 100).2 = Response.json 200 "Bot progress updated" ∧
    selectUser (postBotProgress dbOneBot 1 1 100).1 1 =
      some { sampleUser 1 "KSH" 0 none with
        balance := 0 + convertCurrency 23000 "KSH" "KSH"
        profit := 0 + convertCurrency 23000 "KSH" "KSH"
        active_bots := 1 - 1 } :=
  have h := postBotProgress_completion dbOneBot 1 1 sampleBot
    { sampleUser 1 "KSH" 0 none with active_bots := 1 }
    (by simp [dbOneBot, sampleDb, sampleBot])
    (by simp [selectUser, dbOneBot, sampleDb, sampleUser])
  ⟨h.1, h.2.2.2.1⟩

/-- C6 (the code breaks it): buying a bot with 10000 KSH and setting its
progress to 100 credits 23000 once; setting the progress to 100 a second time
credits 23000 again, takes `active_bots` to -1 and appends a second `profit`
transaction. -/
theorem postBotProgress_second_completion_credits_again :
    postBots dbOneKsh 1 "alpha" 10000 =
      (dbOneBot, Response.json 201 "Trading bot created successfully") ∧
    (selectUser (runOps acceptAll dbOneBot [Op.botProgress 1 1 100]) 1).map
      (fun u => (u.balance, u.profit, u.active_bots)) = some (23000, 23000, 0) ∧
    (selectUser (runOps acceptAll dbOneBot [Op.botProgress 1 1 100, Op.botProgress 1 1 100])
      1).map (fun u => (u.balance, u.profit, u.active_bots)) = some (46000, 46000, -1) ∧
    ((runOps acceptAll dbOneBot [Op.botProgress 1 1 100]).transactions.map
      (fun t => (t.type, t.amount))) = [("profit", 23000)] ∧
    ((runOps acceptAll dbOneBot [Op.botProgress 1 1 100, Op.botProgress 1 1 100]).transactions.map
      (fun t => (t.type, t.amount))) = [("profit", 23000), ("profit", 23000)] := by
  refine ⟨?_, ?_, ?_, ?_, ?_⟩
  · simp [postBots, dbOneKsh, dbOneBot, sampleBot, sampleDb, sampleUser, selectUser,
      convertCurrency, findBracket, brackets, List.find?, updateUser]
    norm_num
  all_goals
    simp [runOps, Op.run, postBotProgress, dbOneBot, sampleBot, sampleDb, sampleUser,
      selectUser, convertCurrency, updateUser, insertTransaction]
  all_goals norm_num

/-! ### The deposit handler -/

/-- The guarded conversion of the handlers is `convertCurrency` itself. -/
theorem convertedAmount_eq (amount : ℚ) (currency userCurrency : String) :
    (if currency ≠ userCurrency then convertCurrency amount currency userCurrency
      else amount) = convertCurrency amount currency userCurrency := by
  by_cases h : currency = userCurrency <;> simp [h, convertCurrency]

/-- The store after a valid deposit request of an existing user. -/
theorem postDeposit_fst (db : Db) (userId : Nat) (amount : ℚ) (method currency : String)
    (network address : Option String) (user : User)
    (hv : 0 < amount ∧ method ≠ "" ∧ (currency = "KSH" ∨ currency = "USD"))
    (hu : selectUser db userId = some user) :
    (postDeposit db userId amount method currency network address).1 =
      processReferral
        (insertTransaction db (fun id =>
          { id := id
            user_id := userId
            type := "deposit"
            method := method
            amount := convertCurrency amount currency user.currency
            currency := user.currency
            status := "pending"
            address := address
            network := network }))
        userId user (convertCurrency amount currency user.currency) := by
  have hv2 : ¬ ¬ (0 < amount ∧ method ≠ "" ∧ (currency = "KSH" ∨ currency = "USD")) :=
    not_not.mpr hv
  simp only [postDeposit, hu, if_neg hv2, convertedAmount_eq]
  split_ifs <;> rfl

/-- The bonus query reads only `referral_bonuses`. -/
theorem pendingBonuses_insertTransaction (db : Db) (row : Nat → Transaction) (userId : Nat) :
    pendingBonuses (insertTransaction db row) userId = pendingBonuses db userId := rfl

/-- The referral block when it fires: the first pending bonus is completed. -/
theorem processReferral_fires (db1 : Db) (userId : Nat) (user : User) (convertedAmount : ℚ)
    (bonus : ReferralBonus)
    (hmin : convertedAmount ≥ minDeposit user.currency)
    (href : truthy user.referred_by = true)
    (hbonus : (pendingBonuses db1 userId).head? = some bonus) :
    processReferral db1 userId user convertedAmount = completeBonus db1 bonus := by
  unfold processReferral
  rw [if_pos hmin, if_pos href]
  cases hp : pendingBonuses db1 userId with
  | nil => simp [hp] at hbonus
  | cons b tl =>
    have : b = bonus := by simpa [hp] using hbonus
    subst this
    rfl

/-- C7: a valid deposit request of a referred user whose amount, converted to
the user's currency, reaches the minimum of that currency (10000 for KSH,
66.67 otherwise), while a pending bonus of that user exists (`bonus` is the
row the query returns first, its referrer's row exists), marks the bonus
`completed`, adds exactly the bonus amount to the referrer's balance, and
appends, after the deposit row, exactly one completed `bonus` transaction of
the referrer with the bonus amount and the bonus currency. -/
theorem postDeposit_completes_referral (db : Db) (userId : Nat) (amount : ℚ)
    (method currency : String) (network address : Option String) (user referrer : User)
    (bonus : ReferralBonus)
    (hv : 0 < amount ∧ method ≠ "" ∧ (currency = "KSH" ∨ currency = "USD"))
    (hu : selectUser db userId = some user)
    (href : truthy user.referred_by = true)
    (hmin : convertCurrency amount currency user.currency ≥ minDeposit user.currency)
    (hbonus : (pendingBonuses db userId).head? = some bonus)
    (hr : selectUser db bonus.referrer_id = some referrer) :
    (postDeposit db userId amount method currency network address).1.referral_bonuses =
      db.referral_bonuses.map (fun b =>
        if b.id = bonus.id then { b with status := "completed" } else b) ∧
    { bonus with status := "completed" } ∈
      (postDeposit db userId amount method currency network address).1.referral_bonuses ∧
    selectUser (postDeposit db userId amount method currency network address).1
        bonus.referrer_id =
      some { referrer with balance := referrer.balance + bonus.amount } ∧
    (postDeposit db userId amount method currency network address).1.transactions =
      db.transactions ++
        [ { id := db.transactions_seq
            user_id := userId
            type := "deposit"
            method := method
            amount := convertCurrency amount currency user.currency
            currency := user.currency
            status := "pending"
            address := address
            network := network },
          { id := db.transactions_seq + 1
            user_id := bonus.referrer_id
            type := "bonus"
            method := "referral"
            amount := bonus.amount
            currency := bonus.currency
            status := "completed"
            address := none
            network := none } ] := by
  rw [postDeposit_fst db userId amount method currency network address user hv hu,
    processReferral_fires _ userId user _ bonus hmin href
      (by rw [pendingBonuses_insertTransaction]; exact hbonus)]
  have hmem : bonus ∈ db.referral_bonuses := by
    have h1 : bonus ∈ pendingBonuses db userId := List.mem_of_mem_head? hbonus
    exact (List.mem_filter.mp h1).1
  have hrid : referrer.id = bonus.referrer_id := by
    have := List.find?_some hr
    simpa using this
  refine ⟨rfl, ?_, ?_, ?_⟩
  · simp only [completeBonus, insertTransaction, updateUser]
    exact List.mem_map.mpr ⟨bonus, hmem, by simp⟩
  · have hr1 : db.users.find? (fun u => decide (u.id = bonus.referrer_id)) = some referrer := hr
    simp only [completeBonus, insertTransaction, updateUser, selectUser]
    rw [find?_map_of_stable, hr1]
    · simp [hrid]
    · intro u
      by_cases h : u.id = bonus.referrer_id <;> simp [h]
  · simp [completeBonus, insertTransaction, updateUser]

/-- Witness of C7: user 2 of `dbReferral` deposits 10000 KSH. -/
theorem postDeposit_completes_referral_witness :
    selectUser (postDeposit dbReferral 2 10000 "mpesa" "KSH" none none).1 1 =
      some { sampleUser 1 "KSH" 200 none with
        referral_code := some "ab12cd34ef", referrals := 1, balance := 200 + 200 } :=
  (postDeposit_completes_referral dbReferral 2 10000 "mpesa" "KSH" none none
    (sampleUser 2 "KSH" 200 (some "ab12cd34ef"))
    { sampleUser 1 "KSH" 200 none with referral_code := some "ab12cd34ef", referrals := 1 }
    { id := 1, referrer_id := 1, referred_id := 2, amount := 200, currency := "KSH",
      status := "pending" }
    (by refine ⟨by norm_num, by decide, Or.inl rfl⟩)
    (by simp [selectUser, dbReferral, sampleDb, sampleUser])
    (by simp [truthy, sampleUser])
    (by simp [convertCurrency, minDeposit, sampleUser])
    (by simp [pendingBonuses, dbReferral, sampleDb])
    (by simp [selectUser, dbReferral, sampleDb, sampleUser])).2.2.1

/-- The referral block does nothing when no bonus of the user is pending. -/
theorem processReferral_no_pending (db1 : Db) (userId : Nat) (user : User)
    (convertedAmount : ℚ) (hp : pendingBonuses db1 userId = []) :
    processReferral db1 userId user convertedAmount = db1 := by
  unfold processReferral
  rw [hp]
  split_ifs <;> rfl

/-- Once the only pending bonus of a user is completed, none is pending. -/
theorem pendingBonuses_completeBonus (db : Db) (userId : Nat) (bonus : ReferralBonus)
    (hsingle : pendingBonuses db userId = [bonus]) :
    pendingBonuses (completeBonus db bonus) userId = [] := by
  simp only [pendingBonuses, completeBonus, insertTransaction, updateUser]
  rw [List.filter_eq_nil_iff]
  intro a ha
  obtain ⟨x, hx, rfl⟩ := List.mem_map.mp ha
  by_cases hid : x.id = bonus.id
  · simp [hid]
  · simp only [hid, if_false]
    intro hpx
    have hxin : x ∈ pendingBonuses db userId := List.mem_filter.mpr ⟨hx, hpx⟩
    rw [hsingle] at hxin
    have : x = bonus := by simpa using hxin
    exact hid (by rw [this])

/-- Reading a user after the bonus was completed. -/
theorem selectUser_completeBonus (db : Db) (bonus : ReferralBonus) (uid : Nat) :
    selectUser (completeBonus db bonus) uid =
      (selectUser db uid).map (fun u =>
        if u.id = bonus.referrer_id then { u with balance := u.balance + bonus.amount }
        else u) := by
  simp only [completeBonus, insertTransaction, updateUser, selectUser]
  apply find?_map_of_stable
  intro u
  by_cases h : u.id = bonus.referrer_id <;> simp [h]

/-- The store after a deposit that has nothing to complete: one more row in
`transactions`, nothing else. -/
theorem postDeposit_fst_no_pending (db : Db) (userId : Nat) (amount : ℚ)
    (method currency : String) (network address : Option String) (user : User)
    (hv : 0 < amount ∧ method ≠ "" ∧ (currency = "KSH" ∨ currency = "USD"))
    (hu : selectUser db userId = some user) (hp : pendingBonuses db userId = []) :
    (postDeposit db userId amount method currency network address).1 =
      insertTransaction db (fun id =>
        { id := id
          user_id := userId
          type := "deposit"
          method := method
          amount := convertCurrency amount currency user.currency
          currency := user.currency
          status := "pending"
          address := address
          network := network }) := by
  rw [postDeposit_fst db userId amount method currency network address user hv hu]
  exact processReferral_no_pending _ userId user _ hp

/-- C8: when the referred user has a single pending bonus, the first qualifying
deposit completes it and credits the referrer; the same deposit made again
leaves every user row (the referrer's balance included), the whole
`referral_bonuses` table and the `bonus` transactions as the first deposit
left them. -/
theorem postDeposit_twice_credits_once (db : Db) (userId : Nat) (amount : ℚ)
    (method currency : String) (network address : Option String) (user referrer : User)
    (bonus : ReferralBonus)
    (hv : 0 < amount ∧ method ≠ "" ∧ (currency = "KSH" ∨ currency = "USD"))
    (hu : selectUser db userId = some user)
    (href : truthy user.referred_by = true)
    (hmin : convertCurrency amount currency user.currency ≥ minDeposit user.currency)
    (hsingle : pendingBonuses db userId = [bonus])
    (hr : selectUser db bonus.referrer_id = some referrer) :
    { bonus with status := "completed" } ∈
      (postDeposit db userId amount method currency network address).1.referral_bonuses ∧
    selectUser (postDeposit db userId amount method currency network address).1
        bonus.referrer_id =
      some { referrer with balance := referrer.balance + bonus.amount } ∧
    (postDeposit (postDeposit db userId amount method currency network address).1
        userId amount method currency network address).1.users =
      (postDeposit db userId amount method currency network address).1.users ∧
    (postDeposit (postDeposit db userId amount method currency network address).1
        userId amount method currency network address).1.referral_bonuses =
      (postDeposit db userId amount method currency network address).1.referral_bonuses ∧
    (postDeposit (postDeposit db userId amount method currency network address).1
        userId amount method currency network address).1.transactions.filter
        (fun t => decide (t.type = "bonus")) =
      (postDeposit db userId amount method currency network address).1.transactions.filter
        (fun t => decide (t.type = "bonus")) ∧
    selectUser (postDeposit (postDeposit db userId amount method currency network address).1
        userId amount method currency network address).1 bonus.referrer_id =
      some { referrer with balance := referrer.balance + bonus.amount } := by
  have hfirst : (postDeposit db userId amount method currency network address).1 =
      completeBonus (insertTransaction db (fun id =>
          { id := id
            user_id := userId
            type := "deposit"
            method := method
            amount := convertCurrency amount currency user.currency
            currency := user.currency
            status := "pending"
            address := address
            network := network })) bonus := by
    rw [postDeposit_fst db userId amount method currency network address user hv hu]
    exact processReferral_fires _ userId user _ bonus hmin href
      (by rw [pendingBonuses_insertTransaction, hsingle]; rfl)
  have hmem : bonus ∈ db.referral_bonuses := by
    have h1 : bonus ∈ pendingBonuses db userId := by rw [hsingle]; exact List.mem_singleton_self _
    exact (List.mem_filter.mp h1).1
  have hrid : referrer.id = bonus.referrer_id := by
    have := List.find?_some hr
    simpa using this
  have hu1 : selectUser (postDeposit db userId amount method currency network address).1
      userId = some (if user.id = bonus.referrer_id then
        { user with balance := user.balance + bonus.amount } else user) := by
    rw [hfirst, selectUser_completeBonus]
    have : selectUser (insertTransaction db (fun id =>
          { id := id
            user_id := userId
            type := "deposit"
            method := method
            amount := convertCurrency amount currency user.currency
            currency := user.currency
            status := "pending"
            address := address
            network := network })) userId = some user := hu
    rw [this]
    rfl
  have hr1 : selectUser (postDeposit db userId amount method currency network address).1
      bonus.referrer_id = some { referrer with balance := referrer.balance + bonus.amount } := by
    rw [hfirst, selectUser_completeBonus]
    have : selectUser (insertTransaction db (fun id =>
          { id := id
            user_id := userId
            type := "deposit"
            method := method
            amount := convertCurrency amount currency user.currency
            currency := user.currency
            status := "pending"
            address := address
            network := network })) bonus.referrer_id = some referrer := hr
    rw [this]
    simp [hrid]
  have hnone : pendingBonuses (postDeposit db userId amount method currency network address).1
      userId = [] := by
    rw [hfirst]
    exact pendingBonuses_completeBonus _ userId bonus
      (by rw [pendingBonuses_insertTransaction, hsingle])
  have hsecond := postDeposit_fst_no_pending
    (postDeposit db userId amount method currency network address).1 userId amount method
    currency network address _ hv hu1 hnone
  refine ⟨?_, hr1, ?_, ?_, ?_, ?_⟩
  · rw [hfirst]
    simp only [completeBonus, insertTransaction, updateUser]
    exact List.mem_map.mpr ⟨bonus, hmem, by simp⟩
  · rw [hsecond]; rfl
  · rw [hsecond]; rfl
  · rw [hsecond]
    simp [insertTransaction]
  · rw [hsecond]
    exact hr1

/-- Witness of C8: user 2 of `dbReferral` deposits 10000 KSH twice. -/
theorem postDeposit_twice_credits_once_witness :
    (postDeposit (postDeposit dbReferral 2 10000 "mpesa" "KSH" none none).1
        2 10000 "mpesa" "KSH" none none).1.users =
      (postDeposit dbReferral 2 10000 "mpesa" "KSH" none none).1.users :=
  (postDeposit_twice_credits_once dbReferral 2 10000 "mpesa" "KSH" none none
    (sampleUser 2 "KSH" 200 (some "ab12cd34ef"))
    { sampleUser 1 "KSH" 200 none with referral_code := some "ab12cd34ef", referrals := 1 }
    { id := 1, referrer_id := 1, referred_id := 2, amount := 200, currency := "KSH",
      status := "pending" }
    (by refine ⟨by norm_num, by decide, Or.inl rfl⟩)
    (by simp [selectUser, dbReferral, sampleDb, sampleUser])
    (by simp [truthy, sampleUser])
    (by simp [convertCurrency, minDeposit, sampleUser])
    (by simp [pendingBonuses, dbReferral, sampleDb])
    (by simp [selectUser, dbReferral, sampleDb, sampleUser])).2.2.1

/-- C9: a deposit request leaves the `referral_bonuses` table, every user row
(so every balance) and the `bonus` transactions unchanged whenever no bonus of
the depositor is pending, or the depositor has no `referred_by` code, or the
converted amount is below the minimum of the depositor's currency. -/
theorem postDeposit_no_referral_effect (db : Db) (userId : Nat) (amount : ℚ)
    (method currency : String) (network address : Option String)
    (h : pendingBonuses db userId = [] ∨
      (∀ user, selectUser db userId = some user → truthy user.referred_by = false) ∨
      (∀ user, selectUser db userId = some user →
        convertCurrency amount currency user.currency < minDeposit user.currency)) :
    (postDeposit db userId amount method currency network address).1.referral_bonuses =
      db.referral_bonuses ∧
    (postDeposit db userId amount method currency network address).1.users = db.users ∧
    (postDeposit db userId amount method currency network address).1.transactions.filter
        (fun t => decide (t.type = "bonus")) =
      db.transactions.filter (fun t => decide (t.type = "bonus")) := by
  by_cases hv : 0 < amount ∧ method ≠ "" ∧ (currency = "KSH" ∨ currency = "USD")
  · cases hu : selectUser db userId with
    | none =>
      have : (postDeposit db userId amount method currency network address).1 = db := by
        have hv2 : ¬ ¬ (0 < amount ∧ method ≠ "" ∧ (currency = "KSH" ∨ currency = "USD")) :=
          not_not.mpr hv
        simp only [postDeposit, hu, if_neg hv2]
      rw [this]
      exact ⟨rfl, rfl, rfl⟩
    | some user =>
      have hskip : processReferral
          (insertTransaction db (fun id =>
            { id := id
              user_id := userId
              type := "deposit"
              method := method
              amount := convertCurrency amount currency user.currency
              currency := user.currency
              status := "pending"
              address := address
              network := network }))
          userId user (convertCurrency amount currency user.currency) =
          insertTransaction db (fun id =>
            { id := id
              user_id := userId
              type := "deposit"
              method := method
              amount := convertCurrency amount currency user.currency
              currency := user.currency
              status := "pending"
              address := address
              network := network }) := by
        rcases h with hp | href | hlt
        · exact processReferral_no_pending _ userId user _
            (by rw [pendingBonuses_insertTransaction, hp])
        · unfold processReferral
          rw [href user hu]
          split_ifs <;> first | rfl | contradiction
        · unfold processReferral
          rw [if_neg (not_le.mpr (hlt user hu))]
      rw [postDeposit_fst db userId amount method currency network address user hv hu, hskip]
      refine ⟨rfl, rfl, ?_⟩
      simp [insertTransaction]
  · have : (postDeposit db userId amount method currency network address).1 = db := by
      simp only [postDeposit, if_pos hv]
    rw [this]
    exact ⟨rfl, rfl, rfl⟩

/-- Witness of C9: user 1 of `dbReferral` was not referred and deposits 10000. -/
theorem postDeposit_no_referral_effect_witness :
    (postDeposit dbReferral 1 10000 "mpesa" "KSH" none none).1.referral_bonuses =
      dbReferral.referral_bonuses ∧
    (postDeposit dbReferral 1 10000 "mpesa" "KSH" none none).1.users = dbReferral.users ∧
    (postDeposit dbReferral 1 10000 "mpesa" "KSH" none none).1.transactions.filter
        (fun t => decide (t.type = "bonus")) =
      dbReferral.transactions.filter (fun t => decide (t.type = "bonus")) :=
  postDeposit_no_referral_effect dbReferral 1 10000 "mpesa" "KSH" none none
    (Or.inl (by simp [pendingBonuses, dbReferral, sampleDb]))

/-- A KSH amount converts to USD by division by 150. -/
theorem convertCurrency_KSH_USD (x : ℚ) : convertCurrency x "KSH" "USD" = x / 150 := by
  simp [convertCurrency, EXCHANGE_RATES.KSH_TO_USD]
  ring

/-- The two values of `minDeposit`. -/
theorem minDeposit_values : minDeposit "KSH" = 10000 ∧ minDeposit "USD" = 66.67 := by
  simp [minDeposit]

/-- C10 (as stated, false): 10000 KSH converts to 200/3 USD, which is not 66.67;
a deposit of exactly 10000 meets the KSH minimum while its USD value is below
the USD minimum. -/
theorem minDeposit_thresholds_disagree :
    convertCurrency 10000 "KSH" "USD" ≠ 66.67 ∧
    (10000 : ℚ) ≥ minDeposit "KSH" ∧
    ¬ (convertCurrency 10000 "KSH" "USD" ≥ minDeposit "USD") := by
  rw [convertCurrency_KSH_USD, minDeposit_values.1, minDeposit_values.2]
  norm_num

/-- C10 (amended): the KSH minimum converts to 200/3 USD, strictly below the
USD minimum 66.67; the USD value of `x` KSH reaches 66.67 exactly when
`x ≥ 10000.5`; so the two thresholds agree on every KSH amount outside
`[10000, 10000.5)`. -/
theorem minDeposit_thresholds_agree_outside (x : ℚ) :
    convertCurrency (minDeposit "KSH") "KSH" "USD" = 200 / 3 ∧
    convertCurrency (minDeposit "KSH") "KSH" "USD" < minDeposit "USD" ∧
    (convertCurrency x "KSH" "USD" ≥ minDeposit "USD" ↔ x ≥ 10000.5) ∧
    ((x ≥ minDeposit "KSH" ↔ convertCurrency x "KSH" "USD" ≥ minDeposit "USD") ↔
      ¬ (10000 ≤ x ∧ x < 10000.5)) := by
  have hc : convertCurrency x "KSH" "USD" = x / 150 := convertCurrency_KSH_USD x
  have hk : minDeposit "KSH" = 10000 := minDeposit_values.1
  have hd : minDeposit "USD" = 66.67 := minDeposit_values.2
  have hiff : convertCurrency x "KSH" "USD" ≥ minDeposit "USD" ↔ x ≥ 10000.5 := by
    rw [hc, hd]
    constructor
    · intro h
      have : (66.67 : ℚ) * 150 ≤ x := by
        have := (le_div_iff₀ (by norm_num : (0 : ℚ) < 150)).mp h
        linarith
      norm_num at this ⊢
      linarith
    · intro h
      apply (le_div_iff₀ (by norm_num : (0 : ℚ) < 150)).mpr
      norm_num at h ⊢
      linarith
  refine ⟨?_, ?_, hiff, ?_⟩
  · rw [convertCurrency_KSH_USD, hk]
    norm_num
  · rw [convertCurrency_KSH_USD, hk, hd]
    norm_num
  · rw [hiff, hk]
    constructor
    · intro h hx
      have := h.mp hx.1
      norm_num at this
      linarith [hx.2]
    · intro h
      constructor
      · intro hx
        by_contra hlt
        apply h
        refine ⟨hx, ?_⟩
        norm_num at hlt ⊢
        linarith
      · intro hx
        norm_num at hx
        linarith

/-! ### Currency conversion -/

/-- C11: the two configured rates are exact reciprocals, and converting an
amount from `A` to `B` and back gives the amount itself, for every pair of
currencies (the supported pairs over KSH and USD in particular), in exact
arithmetic. -/
theorem convertCurrency_round_trip (x : ℚ) (A B : String) :
    EXCHANGE_RATES.USD_TO_KSH * EXCHANGE_RATES.KSH_TO_USD = 1 ∧
    convertCurrency (convertCurrency x A B) B A = x := by
  refine ⟨by norm_num [EXCHANGE_RATES.USD_TO_KSH, EXCHANGE_RATES.KSH_TO_USD], ?_⟩
  by_cases hAB : A = B
  · subst hAB
    simp [convertCurrency]
  · have hBA : ¬ B = A := fun h => hAB h.symm
    by_cases h1 : A = "USD" ∧ B = "KSH"
    · obtain ⟨rfl, rfl⟩ := h1
      simp [convertCurrency, EXCHANGE_RATES.USD_TO_KSH, EXCHANGE_RATES.KSH_TO_USD]
      norm_num
      ring
    · by_cases h2 : A = "KSH" ∧ B = "USD"
      · obtain ⟨rfl, rfl⟩ := h2
        simp [convertCurrency, EXCHANGE_RATES.USD_TO_KSH, EXCHANGE_RATES.KSH_TO_USD]
        norm_num
        ring
      · have h3 : ¬ (B = "USD" ∧ A = "KSH") := fun h => h2 ⟨h.2, h.1⟩
        have h4 : ¬ (B = "KSH" ∧ A = "USD") := fun h => h1 ⟨h.2, h.1⟩
        simp only [convertCurrency, if_neg hAB, if_neg hBA, if_neg h1, if_neg h2, if_neg h3,
          if_neg h4]

/-- C12: converting an amount from a currency to the same currency returns
the amount unchanged, whatever the currency string is. -/
theorem convertCurrency_same (x : ℚ) (c : String) : convertCurrency x c c = x := by
  simp [convertCurrency]

/-- C13 (as stated, false): converting 100 from the unsupported `EUR` to `KSH`
raises nothing and returns the input amount 100. -/
theorem convertCurrency_unsupported_returns_input :
    convertCurrency 100 "EUR" "KSH" = 100 := by
  simp [convertCurrency]

/-- C13 (amended): for two distinct currencies of which at least one is neither
KSH nor USD, `convertCurrency` takes its fallback branch and returns the input
amount unchanged; the function has no error result. -/
theorem convertCurrency_unsupported_fallback (x : ℚ) (A B : String) (hne : A ≠ B)
    (hun : ¬ (A = "KSH" ∨ A = "USD") ∨ ¬ (B = "KSH" ∨ B = "USD")) :
    convertCurrency x A B = x := by
  have h1 : ¬ (A = "USD" ∧ B = "KSH") := by
    rintro ⟨hA, hB⟩
    rcases hun with h | h
    · exact h (Or.inr hA)
    · exact h (Or.inl hB)
  have h2 : ¬ (A = "KSH" ∧ B = "USD") := by
    rintro ⟨hA, hB⟩
    rcases hun with h | h
    · exact h (Or.inl hA)
    · exact h (Or.inr hB)
  simp only [convertCurrency, if_neg hne, if_neg h1, if_neg h2]

/-- Witness of C13: 250 from `USD` to the unsupported `EUR`. -/
theorem convertCurrency_unsupported_fallback_witness :
    convertCurrency 250 "USD" "EUR" = 250 :=
  convertCurrency_unsupported_fallback 250 "USD" "EUR" (by decide)
    (Or.inr (by decide))

/-! ### The admin status update -/

/-- The `transactions` table after a valid status update of an existing row:
every row with the given id carries the requested status. -/
theorem putAdminTransaction_transactions (db : Db) (transactionId : Nat) (status : String)
    (t : Transaction)
    (hv : status = "pending" ∨ status = "completed" ∨ status = "failed")
    (hfind : db.transactions.find? (fun t => decide (t.id = transactionId)) = some t) :
    (putAdminTransaction db transactionId status).1.transactions =
      db.transactions.map (fun t =>
        if t.id = transactionId then { t with status := status } else t) := by
  simp only [putAdminTransaction, hfind, if_neg (not_not.mpr hv)]
  split_ifs <;> rfl

/-- The `users` table after a valid status update of an existing row. -/
theorem putAdminTransaction_users (db : Db) (transactionId : Nat) (status : String)
    (t : Transaction)
    (hv : status = "pending" ∨ status = "completed" ∨ status = "failed")
    (hfind : db.transactions.find? (fun t => decide (t.id = transactionId)) = some t) :
    (putAdminTransaction db transactionId status).1.users =
      if status = "completed" ∧ t.type = "deposit" then
        db.users.map (fun u =>
          if u.id = t.user_id then { u with balance := u.balance + t.amount } else u)
      else if status = "completed" ∧ t.type = "withdraw" then
        db.users.map (fun u =>
          if u.id = t.user_id then { u with balance := u.balance - t.amount } else u)
      else db.users := by
  simp only [putAdminTransaction, hfind, if_neg (not_not.mpr hv)]
  by_cases h1 : status = "completed" ∧ t.type = "deposit"
  · have h2 : ¬ (status = "completed" ∧ t.type = "withdraw") := by
      rintro ⟨_, hw⟩
      rw [h1.2] at hw
      exact absurd hw (by decide)
    simp only [if_pos h1, if_neg h2, updateUser]
  · by_cases h2 : status = "completed" ∧ t.type = "withdraw"
    · simp only [if_neg h1, if_pos h2, updateUser]
    · simp only [if_neg h1, if_neg h2]

/-- The response to a valid status update of an existing row. -/
theorem putAdminTransaction_response (db : Db) (transactionId : Nat) (status : String)
    (t : Transaction)
    (hv : status = "pending" ∨ status = "completed" ∨ status = "failed")
    (hfind : db.transactions.find? (fun t => decide (t.id = transactionId)) = some t) :
    (putAdminTransaction db transactionId status).2 =
      Response.json 200 "Transaction updated successfully" := by
  simp only [putAdminTransaction, hfind, if_neg (not_not.mpr hv)]

/-- A status update to `pending` or `failed` leaves the `users` table as it was. -/
theorem putAdminTransaction_users_of_ne_completed (db : Db) (transactionId : Nat)
    (status : String) (hs : status ≠ "completed") :
    (putAdminTransaction db transactionId status).1.users = db.users := by
  by_cases hv : status = "pending" ∨ status = "completed" ∨ status = "failed"
  · cases hfind : db.transactions.find? (fun t => decide (t.id = transactionId)) with
    | none => simp only [putAdminTransaction, hfind, if_neg (not_not.mpr hv)]
    | some t =>
      rw [putAdminTransaction_users db transactionId status t hv hfind]
      simp [hs]
  · simp only [putAdminTransaction, if_pos hv]

/-- C15 (the code breaks it): user 1 requests a deposit of 5000 KSH and the
admin completes it, which credits 5000 (balance 15000, status `completed`);
applying the status update with `completed` again to the already completed
transaction credits 5000 once more (balance 20000). -/
theorem putAdminTransaction_recompletion_credits_again :
    (postDeposit dbOneKsh 1 5000 "mpesa" "KSH" none none).1 = dbPendingDeposit ∧
    (runOps acceptAll dbPendingDeposit [Op.adminTransaction 1 "completed"]).transactions.map
      (fun t => (t.id, t.status)) = [(1, "completed")] ∧
    (selectUser (runOps acceptAll dbPendingDeposit [Op.adminTransaction 1 "completed"]) 1).map
      (fun u => u.balance) = some 15000 ∧
    (selectUser (runOps acceptAll dbPendingDeposit
      [Op.adminTransaction 1 "completed", Op.adminTransaction 1 "completed"]) 1).map
      (fun u => u.balance) = some 20000 := by
  refine ⟨?_, ?_, ?_, ?_⟩
  · simp [postDeposit, processReferral, dbPendingDeposit, sampleDeposit, dbOneKsh, sampleDb,
      sampleUser, selectUser, insertTransaction, convertCurrency, minDeposit, truthy]
  all_goals
    simp [runOps, Op.run, putAdminTransaction, dbPendingDeposit, sampleDeposit, dbOneKsh,
      sampleDb, sampleUser, selectUser, updateUser]
  all_goals norm_num

/-- C16: the admin status update with `completed` answers
`404 Transaction not found` and leaves the store as it was when no transaction
has the id; for an existing transaction it answers 200 and adds exactly
`amount` to the balance of the owner for type `deposit`, subtracts exactly
`amount` for type `withdraw`, changing no other user row, and leaves the
`users` table as it was for any other type. -/
theorem putAdminTransaction_completed_delta (db : Db) (transactionId : Nat) :
    (db.transactions.find? (fun t => decide (t.id = transactionId)) = none →
      putAdminTransaction db transactionId "completed" =
        (db, Response.json 404 "Transaction not found")) ∧
    (∀ t, db.transactions.find? (fun t => decide (t.id = transactionId)) = some t →
      (putAdminTransaction db transactionId "completed").2 =
        Response.json 200 "Transaction updated successfully" ∧
      (t.type = "deposit" →
        (putAdminTransaction db transactionId "completed").1.users =
          db.users.map (fun u =>
            if u.id = t.user_id then { u with balance := u.balance + t.amount } else u) ∧
        ∀ owner, selectUser db t.user_id = some owner →
          selectUser (putAdminTransaction db transactionId "completed").1 t.user_id =
            some { owner with balance := owner.balance + t.amount }) ∧
      (t.type = "withdraw" →
        (putAdminTransaction db transactionId "completed").1.users =
          db.users.map (fun u =>
            if u.id = t.user_id then { u with balance := u.balance - t.amount } else u) ∧
        ∀ owner, selectUser db t.user_id = some owner →
          selectUser (putAdminTransaction db transactionId "completed").1 t.user_id =
            some { owner with balance := owner.balance - t.amount }) ∧
      (t.type ≠ "deposit" → t.type ≠ "withdraw" →
        (putAdminTransaction db transactionId "completed").1.users = db.users)) := by
  have hv : ("completed" : String) = "pending" ∨ ("completed" : String) = "completed" ∨
      ("completed" : String) = "failed" := Or.inr (Or.inl rfl)
  refine ⟨?_, ?_⟩
  · intro hnone
    simp [putAdminTransaction, hnone]
  · intro t hfind
    have husers := putAdminTransaction_users db transactionId "completed" t hv hfind
    refine ⟨putAdminTransaction_response db transactionId "completed" t hv hfind, ?_, ?_, ?_⟩
    · intro hd
      have h1 : (putAdminTransaction db transactionId "completed").1.users =
          db.users.map (fun u =>
            if u.id = t.user_id then { u with balance := u.balance + t.amount } else u) := by
        rw [husers]
        simp [hd]
      refine ⟨h1, ?_⟩
      intro owner hown
      have hid : owner.id = t.user_id := by
        have := List.find?_some hown
        simpa using this
      have hown1 : db.users.find? (fun u => decide (u.id = t.user_id)) = some owner := hown
      unfold selectUser
      rw [h1, find?_map_of_stable, hown1]
      · simp [hid]
      · intro u
        by_cases h : u.id = t.user_id <;> simp [h]
    · intro hw
      have h1 : (putAdminTransaction db transactionId "completed").1.users =
          db.users.map (fun u =>
            if u.id = t.user_id then { u with balance := u.balance - t.amount } else u) := by
        rw [husers]
        simp [hw]
      refine ⟨h1, ?_⟩
      intro owner hown
      have hid : owner.id = t.user_id := by
        have := List.find?_some hown
        simpa using this
      have hown1 : db.users.find? (fun u => decide (u.id = t.user_id)) = some owner := hown
      unfold selectUser
      rw [h1, find?_map_of_stable, hown1]
      · simp [hid]
      · intro u
        by_cases h : u.id = t.user_id <;> simp [h]
    · intro hd hw
      rw [husers]
      simp [hd, hw]

/-- Witness of C16: completing `sampleDeposit` in `dbPendingDeposit` credits
5000 to user 1. -/
theorem putAdminTransaction_completed_delta_witness :
    selectUser (putAdminTransaction dbPendingDeposit 1 "completed").1 1 =
      some { sampleUser 1 "KSH" 10000 none with balance := 10000 + 5000 } :=
  ((putAdminTransaction_completed_delta dbPendingDeposit 1).2 sampleDeposit
    (by simp [dbPendingDeposit, sampleDeposit])).2.1 rfl |>.2
    (sampleUser 1 "KSH" 10000 none)
    (by simp [selectUser, dbPendingDeposit, dbOneKsh, sampleDb, sampleUser, sampleDeposit])

/-- Reading the row back after a valid status update: it carries the requested
status and is otherwise the row read before. -/
theorem putAdminTransaction_find? (db : Db) (transactionId : Nat) (status : String)
    (t : Transaction)
    (hv : status = "pending" ∨ status = "completed" ∨ status = "failed")
    (hfind : db.transactions.find? (fun t => decide (t.id = transactionId)) = some t) :
    (putAdminTransaction db transactionId status).1.transactions.find?
        (fun t => decide (t.id = transactionId)) = some { t with status := status } := by
  have hid : t.id = transactionId := by
    have := List.find?_some hfind
    simpa using this
  rw [putAdminTransaction_transactions db transactionId status t hv hfind,
    find?_map_of_stable, hfind]
  · simp [hid]
  · intro x
    by_cases h : x.id = transactionId <;> simp [h]

/-- The row read back after a sequence of valid status updates of one
transaction carries the last requested status, or its old one when the
sequence is empty. -/
theorem runOps_adminTransaction_find? (transactionId : Nat) (sts : List String) :
    ∀ (db : Db) (t : Transaction),
      db.transactions.find? (fun t => decide (t.id = transactionId)) = some t →
      (∀ s ∈ sts, s = "pending" ∨ s = "completed" ∨ s = "failed") →
      (runOps acceptAll db (sts.map (Op.adminTransaction transactionId))).transactions.find?
          (fun t => decide (t.id = transactionId)) =
        some { t with status := sts.getLast?.getD t.status } := by
  induction sts with
  | nil =>
    intro db t hfind _
    simpa [runOps] using hfind
  | cons s rest ih =>
    intro db t hfind hv
    have hs := hv s (List.mem_cons_self _ _)
    have h1 := putAdminTransaction_find? db transactionId s t hs hfind
    have h2 := ih (putAdminTransaction db transactionId s).1 { t with status := s } h1
      (fun x hx => hv x (List.mem_cons_of_mem _ hx))
    have hrun : runOps acceptAll db ((s :: rest).map (Op.adminTransaction transactionId)) =
        runOps acceptAll (putAdminTransaction db transactionId s).1
          (rest.map (Op.adminTransaction transactionId)) := by
      simp [runOps, Op.run]
    rw [hrun, h2, List.getLast?_cons]
    cases rest.getLast? <;> rfl

/-- C17 (as stated, false): once `sampleDeposit` is completed, a status update
with `pending` makes it pending again, and one with `failed` switches it from
completed to failed. -/
theorem putAdminTransaction_status_goes_back :
    (runOps acceptAll dbPendingDeposit [Op.adminTransaction 1 "completed"]).transactions.map
      (fun t => (t.id, t.status)) = [(1, "completed")] ∧
    (runOps acceptAll dbPendingDeposit
      [Op.adminTransaction 1 "completed", Op.adminTransaction 1 "pending"]).transactions.map
      (fun t => (t.id, t.status)) = [(1, "pending")] ∧
    (runOps acceptAll dbPendingDeposit
      [Op.adminTransaction 1 "completed", Op.adminTransaction 1 "failed"]).transactions.map
      (fun t => (t.id, t.status)) = [(1, "failed")] := by
  refine ⟨?_, ?_, ?_⟩ <;>
    simp [runOps, Op.run, putAdminTransaction, dbPendingDeposit, sampleDeposit, dbOneKsh,
      sampleDb, sampleUser, updateUser]

/-- C17 (amended): the admin status update stores the requested status
(`pending`, `completed` or `failed`) whatever the current status is; after any
sequence of status updates of an existing transaction its status is the last
one requested. -/
theorem putAdminTransaction_last_status_wins (db : Db) (transactionId : Nat)
    (t : Transaction) (sts : List String) (last : String)
    (hfind : db.transactions.find? (fun t => decide (t.id = transactionId)) = some t)
    (hv : ∀ s ∈ sts, s = "pending" ∨ s = "completed" ∨ s = "failed")
    (hlast : sts.getLast? = some last) :
    (runOps acceptAll db (sts.map (Op.adminTransaction transactionId))).transactions.find?
        (fun t => decide (t.id = transactionId)) = some { t with status := last } := by
  rw [runOps_adminTransaction_find? transactionId sts db t hfind hv, hlast]
  rfl

/-- Witness of C17: `sampleDeposit` is set to completed, then to pending. -/
theorem putAdminTransaction_last_status_wins_witness :
    (runOps acceptAll dbPendingDeposit
      (["completed", "pending"].map (Op.adminTransaction 1))).transactions.find?
        (fun t => decide (t.id = 1)) = some { sampleDeposit with status := "pending" } :=
  putAdminTransaction_last_status_wins dbPendingDeposit 1 sampleDeposit
    ["completed", "pending"] "pending"
    (by simp [dbPendingDeposit, sampleDeposit])
    (by intro s hs; simp at hs; rcases hs with rfl | rfl <;> simp)
    (by simp)

/-! ### The progress update and the purchase, continued -/

/-- The `trading_bots` table after a valid progress update of a bot of the
caller: every row with the bot's id gets the requested progress, and the
status `completed` when the progress is 100. -/
theorem postBotProgress_trading_bots (db : Db) (userId botId : Nat) (progress : Int)
    (bot : TradingBot) (hq : 0 ≤ progress ∧ progress ≤ 100)
    (hb : db.trading_bots.find? (fun b => decide (b.id = botId ∧ b.user_id = userId)) =
      some bot) :
    (postBotProgress db userId botId progress).1.trading_bots =
      db.trading_bots.map (fun b =>
        if b.id = botId then
          { b with
            progress := progress
            status := if progress ≥ 100 then "completed" else b.status }
        else b) := by
  simp only [postBotProgress, hb, if_neg (not_not.mpr hq)]
  by_cases h100 : progress ≥ 100
  · have hmap : (db.trading_bots.map (fun b =>
          if b.id = botId then { b with progress := progress } else b)).map (fun b =>
          if b.id = botId then { b with status := "completed" } else b) =
        db.trading_bots.map (fun b =>
          if b.id = botId then { b with progress := progress, status := "completed" }
          else b) := by
      rw [List.map_map]
      apply List.map_congr_left
      intro b _
      by_cases h : b.id = botId <;> simp [h]
    simp only [if_pos h100]
    split <;> exact hmap
  · simp only [if_neg h100]

/-- C18 (the code breaks it): the predicate holds for the newly purchased
`sampleBot` and after its completion (status `completed`, progress 100); a
further progress update with 50 is stored, leaving the bot `completed` with
progress 50. -/
theorem postBotProgress_breaks_completedAtFull :
    completedAtFull dbOneBot ∧
    (runOps acceptAll dbOneBot [Op.botProgress 1 1 100]).trading_bots.map
      (fun b => (b.status, b.progress)) = [("completed", 100)] ∧
    completedAtFull (runOps acceptAll dbOneBot [Op.botProgress 1 1 100]) ∧
    (Op.run acceptAll (runOps acceptAll dbOneBot [Op.botProgress 1 1 100])
      (Op.botProgress 1 1 50)).1.trading_bots.map
      (fun b => (b.status, b.progress)) = [("completed", 50)] ∧
    ¬ completedAtFull (Op.run acceptAll (runOps acceptAll dbOneBot [Op.botProgress 1 1 100])
      (Op.botProgress 1 1 50)).1 := by
  refine ⟨?_, ?_, ?_, ?_, ?_⟩ <;>
    simp [completedAtFull, runOps, Op.run, postBotProgress, dbOneBot, sampleBot, sampleDb,
      sampleUser, selectUser, updateUser, insertTransaction]

/-- C19 (as stated, false): `sampleBot` is driven to progress 60 and then to
30; the stored progress goes from 60 down to 30. -/
theorem postBotProgress_progress_decreases :
    (runOps acceptAll dbOneBot [Op.botProgress 1 1 60]).trading_bots.map
      (fun b => b.progress) = [60] ∧
    (Op.run acceptAll (runOps acceptAll dbOneBot [Op.botProgress 1 1 60])
      (Op.botProgress 1 1 30)).1.trading_bots.map (fun b => b.progress) = [30] ∧
    (Op.run acceptAll (runOps acceptAll dbOneBot [Op.botProgress 1 1 60])
      (Op.botProgress 1 1 30)).2 = Response.json 200 "Bot progress updated" := by
  refine ⟨?_, ?_, ?_⟩ <;>
    simp [runOps, Op.run, postBotProgress, dbOneBot, sampleBot, sampleDb,
      sampleUser, selectUser, updateUser, insertTransaction]

/-- C19 (amended): for a bot of the caller (an active one in particular) with
stored progress `p` and a request with value `q` in 0..100, the stored progress
afterwards is `q` itself, whatever `p` was: it is at least `p` exactly when
`q ≥ p`, a decrease is neither rejected nor clamped. -/
theorem postBotProgress_stores_requested (db : Db) (userId botId : Nat) (q : Int)
    (bot : TradingBot) (hq : 0 ≤ q ∧ q ≤ 100)
    (hb : db.trading_bots.find? (fun b => decide (b.id = botId ∧ b.user_id = userId)) =
      some bot) :
    (postBotProgress db userId botId q).1.trading_bots.find?
        (fun b => decide (b.id = botId ∧ b.user_id = userId)) =
      some { bot with
        progress := q
        status := if q ≥ 100 then "completed" else bot.status } ∧
    ∀ stored, (postBotProgress db userId botId q).1.trading_bots.find?
        (fun b => decide (b.id = botId ∧ b.user_id = userId)) = some stored →
      stored.progress = q ∧ (bot.progress ≤ stored.progress ↔ bot.progress ≤ q) := by
  have hbid : bot.id = botId := by
    have := List.find?_some hb
    simp at this
    exact this.1
  have hfind : (postBotProgress db userId botId q).1.trading_bots.find?
        (fun b => decide (b.id = botId ∧ b.user_id = userId)) =
      some { bot with
        progress := q
        status := if q ≥ 100 then "completed" else bot.status } := by
    rw [postBotProgress_trading_bots db userId botId q bot hq hb, find?_map_of_stable, hb]
    · simp [hbid]
    · intro b
      by_cases h : b.id = botId <;> simp [h]
  refine ⟨hfind, ?_⟩
  intro stored hs
  rw [hfind] at hs
  have := Option.some.inj hs
  subst this
  exact ⟨rfl, Iff.rfl⟩

/-- Witness of C19: `sampleBot` (progress 0) is set to 60. -/
theorem postBotProgress_stores_requested_witness :
    (postBotProgress dbOneBot 1 1 60).1.trading_bots.find?
        (fun b => decide (b.id = 1 ∧ b.user_id = 1)) =
      some { sampleBot with
        progress := 60
        status := if (60 : Int) ≥ 100 then "completed" else sampleBot.status } :=
  (postBotProgress_stores_requested dbOneBot 1 1 60 sampleBot (by decide)
    (by simp [dbOneBot, sampleDb, sampleBot])).1

/-- A positive amount converts to a positive amount. -/
theorem convertCurrency_pos (x : ℚ) (A B : String) (hx : 0 < x) :
    0 < convertCurrency x A B := by
  unfold convertCurrency
  split_ifs
  · exact hx
  · exact mul_pos hx (by norm_num [EXCHANGE_RATES.USD_TO_KSH])
  · exact mul_pos hx (by norm_num [EXCHANGE_RATES.KSH_TO_USD])
  · exact hx

/-- The store and the response of a purchase that passes every check. -/
theorem postBots_success (db : Db) (userId : Nat) (name : String) (investment : ℚ)
    (user : User) (br : Bracket) (hname : name ≠ "") (hpos : 0 < investment)
    (hu : selectUser db userId = some user) (hle : investment ≤ user.balance)
    (hbr : findBracket (convertCurrency investment user.currency "KSH") = some br) :
    postBots db userId name investment =
      (updateUser
        { db with
          trading_bots := db.trading_bots ++
            [ { id := db.trading_bots_seq
                user_id := userId
                name := name
                investment := convertCurrency investment user.currency "KSH"
                daily_profit :=
                  convertCurrency investment user.currency "KSH" * br.multiplier / 30
                total_profit := convertCurrency investment user.currency "KSH" * br.multiplier
                progress := 0
                image_url := "https://images.unsplash.com/photo-1639762681485-074b7f938ba0"
                status := "active" } ]
          trading_bots_seq := db.trading_bots_seq + 1 }
        userId
        (fun u => { u with balance := u.balance - investment, active_bots := u.active_bots + 1 }),
       Response.json 201 "Trading bot created successfully") := by
  have hv : ¬ ¬ (name ≠ "" ∧ 0 < investment) := not_not.mpr ⟨hname, hpos⟩
  have hb : ¬ investment > user.balance := not_lt.mpr hle
  simp only [postBots, if_neg hv, hu, if_neg hb, hbr]

/-- C20: for a purchase request with a non-empty name and
`0 < amount ≤ balance`, the handler answers 201, appends exactly one bot row
of the user (status `active`, progress 0, investment the amount in KSH), takes
exactly `amount` off the user's balance and adds exactly 1 to `active_bots`;
whenever the answer is not 201 the store is left exactly as it was, so no bot
is created and no balance changed. -/
theorem postBots_commits_together (db : Db) (userId : Nat) (name : String)
    (investment : ℚ) :
    (∀ user, selectUser db userId = some user → name ≠ "" → 0 < investment →
      investment ≤ user.balance →
      (postBots db userId name investment).2 =
        Response.json 201 "Trading bot created successfully" ∧
      (∃ bot, (postBots db userId name investment).1.trading_bots =
          db.trading_bots ++ [bot] ∧
        bot.id = db.trading_bots_seq ∧ bot.user_id = userId ∧ bot.name = name ∧
        bot.status = "active" ∧ bot.progress = 0 ∧
        bot.investment = convertCurrency investment user.currency "KSH") ∧
      selectUser (postBots db userId name investment).1 userId =
        some { user with
          balance := user.balance - investment
          active_bots := user.active_bots + 1 }) ∧
    ((postBots db userId name investment).2 ≠
        Response.json 201 "Trading bot created successfully" →
      (postBots db userId name investment).1 = db) := by
  refine ⟨?_, ?_⟩
  · intro user hu hname hpos hle
    obtain ⟨br, hbr⟩ := findBracket_isSome (convertCurrency investment user.currency "KSH")
      (le_of_lt (convertCurrency_pos investment user.currency "KSH" hpos))
    have hid : user.id = userId := by
      have := List.find?_some hu
      simpa using this
    have hu1 : db.users.find? (fun u => decide (u.id = userId)) = some user := hu
    rw [postBots_success db userId name investment user br hname hpos hu hle hbr]
    refine ⟨rfl, ⟨_, rfl, rfl, rfl, rfl, rfl, rfl, rfl⟩, ?_⟩
    simp only [selectUser, updateUser]
    rw [find?_map_of_stable, hu1]
    · simp [hid]
    · intro u
      by_cases h : u.id = userId <;> simp [h]
  · intro hresp
    by_cases hv : name ≠ "" ∧ 0 < investment
    · cases hu : selectUser db userId with
      | none => simp [postBots, hv, hu]
      | some user =>
        by_cases hb : investment > user.balance
        · simp [postBots, hv, hu, hb]
        · cases hf : findBracket (convertCurrency investment user.currency "KSH") with
          | none => simp [postBots, hv, hu, hb, hf]
          | some br =>
            exfalso
            apply hresp
            rw [postBots_success db userId name investment user br hv.1 hv.2 hu
              (not_lt.mp hb) hf]
    · simp [postBots, hv]

/-- Witness of C20: the user of `dbOneKsh` invests the whole balance 10000. -/
theorem postBots_commits_together_witness :
    selectUser (postBots dbOneKsh 1 "alpha" 10000).1 1 =
      some { sampleUser 1 "KSH" 10000 none with
        balance := 10000 - 10000
        active_bots := 0 + 1 } :=
  ((postBots_commits_together dbOneKsh 1 "alpha" 10000).1 (sampleUser 1 "KSH" 10000 none)
    (by simp [selectUser, dbOneKsh, sampleDb, sampleUser]) (by decide) (by norm_num)
    (by simp [sampleUser])).2.2

/-! ### Balance changes and their transaction rows -/

/-- The id read back from `selectUser` is the id asked for. -/
theorem selectUser_id (db : Db) (userId : Nat) (u : User)
    (hu : selectUser db userId = some u) : u.id = userId := by
  have := List.find?_some hu
  simpa using this

/-- A step that leaves `users` as it was leaves every balance as it was. -/
theorem balanceOf_of_users_eq (db db1 : Db) (userId : Nat) (h : db1.users = db.users) :
    balanceOf db1 userId = balanceOf db userId := by
  unfold balanceOf selectUser
  rw [h]

/-- The balance after `UPDATE users SET balance = balance + d ... WHERE id`. -/
theorem balanceOf_of_users_map (db db1 : Db) (id userId : Nat) (g : User → User) (d b : ℚ)
    (hgid : ∀ u, (g u).id = u.id) (hgbal : ∀ u, (g u).balance = u.balance + d)
    (husers : db1.users = db.users.map (fun u => if u.id = id then g u else u))
    (hb : balanceOf db userId = some b) :
    balanceOf db1 userId = some (if userId = id then b + d else b) := by
  unfold balanceOf at hb ⊢
  cases hu : selectUser db userId with
  | none => simp [hu] at hb
  | some u =>
    have hbu : u.balance = b := by simpa [hu] using hb
    have huid := selectUser_id db userId u hu
    have hu1 : db.users.find? (fun u => decide (u.id = userId)) = some u := hu
    unfold selectUser
    rw [husers, find?_map_of_stable, hu1]
    · by_cases h : userId = id
      · simp [huid, h, hgbal, hbu]
      · have h2 : ¬ u.id = id := by rw [huid]; exact h
        simp [h, h2, hbu]
    · intro x
      by_cases h : x.id = id <;> simp [h, hgid]

/-- Rows appended by a step: the recorded rows are among the appended ones. -/
theorem recordedRows_append (db db1 : Db) (userId : Nat) (new : List Transaction)
    (htx : db1.transactions = db.transactions ++ new) :
    recordedRows db db1 userId =
      new.filter (fun t =>
        decide (t.user_id = userId ∧ t.status = "completed" ∧ t ∉ db.transactions)) := by
  unfold recordedRows
  rw [htx, List.filter_append]
  have : db.transactions.filter (fun t =>
      decide (t.user_id = userId ∧ t.status = "completed" ∧ t ∉ db.transactions)) = [] := by
    rw [List.filter_eq_nil_iff]
    intro t ht
    simp [ht]
  rw [this, List.nil_append]

/-- In a list without duplicates, when only the image of `t` passes the filter,
filtering the mapped list leaves that image alone. -/
theorem filter_map_single {α : Type} (l : List α) (f : α → α) (P : α → Bool) (t : α)
    (hnd : l.Nodup) (ht : t ∈ l) (hP : P (f t) = true)
    (hother : ∀ x ∈ l, x ≠ t → P (f x) = false) :
    (l.map f).filter P = [f t] := by
  induction l with
  | nil => simp at ht
  | cons a l ih =>
    rw [List.nodup_cons] at hnd
    by_cases hat : a = t
    · subst hat
      have hrest : (l.map f).filter P = [] := by
        rw [List.filter_eq_nil_iff]
        intro y hy
        obtain ⟨x, hx, rfl⟩ := List.mem_map.mp hy
        have hne : x ≠ a := fun h => hnd.1 (h ▸ hx)
        simp [hother x (List.mem_cons_of_mem _ hx) hne]
      simp [List.filter_cons, hP, hrest]
    · have htl : t ∈ l := by
        rcases List.mem_cons.mp ht with h | h
        · exact absurd h.symm hat
        · exact h
      have hPa : P (f a) = false := hother a (List.mem_cons_self _ _) hat
      have := ih hnd.2 htl (fun x hx hne => hother x (List.mem_cons_of_mem _ hx) hne)
      simp [List.filter_cons, hPa, this]

/-- A credit whose transaction row is appended (after rows that are not
completed) is recorded: the user whose balance changed has exactly that row
recorded, with the change as signed amount. -/
theorem recorded_of_credit_append (db db1 : Db) (id userId : Nat) (g : User → User)
    (d b b1 : ℚ) (pre : List Transaction) (row : Transaction)
    (hk : transactionsKeyed db)
    (hgid : ∀ u, (g u).id = u.id) (hgbal : ∀ u, (g u).balance = u.balance + d)
    (husers : db1.users = db.users.map (fun u => if u.id = id then g u else u))
    (htx : db1.transactions = db.transactions ++ (pre ++ [row]))
    (hpre : ∀ t ∈ pre, t.status ≠ "completed")
    (hrow_user : row.user_id = id) (hrow_status : row.status = "completed")
    (hrow_id : db.transactions_seq ≤ row.id) (hrow_signed : signedAmount row = d)
    (hb : balanceOf db userId = some b) (hb1 : balanceOf db1 userId = some b1)
    (hne : b1 ≠ b) :
    ∃ t, recordedRows db db1 userId = [t] ∧ signedAmount t = b1 - b := by
  have h1 := balanceOf_of_users_map db db1 id userId g d b hgid hgbal husers hb
  rw [hb1] at h1
  have h2 : b1 = if userId = id then b + d else b := Option.some.inj h1
  by_cases hid : userId = id
  · rw [if_pos hid] at h2
    refine ⟨row, ?_, by rw [hrow_signed, h2]; ring⟩
    rw [recordedRows_append db db1 userId (pre ++ [row]) htx, List.filter_append]
    have hpre0 : pre.filter (fun t =>
        decide (t.user_id = userId ∧ t.status = "completed" ∧ t ∉ db.transactions)) = [] := by
      rw [List.filter_eq_nil_iff]
      intro t ht
      simp [hpre t ht]
    have hnotin : row ∉ db.transactions := by
      intro hin
      have := hk.2 row hin
      omega
    rw [hpre0, List.nil_append]
    simp [hrow_user, hrow_status, hnotin, hid]
  · rw [if_neg hid] at h2
    exact absurd h2 hne

/-- A completion of a keyed, not yet completed transaction is recorded. -/
theorem recorded_of_completion (db db1 : Db) (transactionId userId : Nat) (t : Transaction)
    (d b b1 : ℚ) (g : User → User)
    (hk : transactionsKeyed db)
    (hfind : db.transactions.find? (fun t => decide (t.id = transactionId)) = some t)
    (hnot : t.status ≠ "completed")
    (hgid : ∀ u, (g u).id = u.id) (hgbal : ∀ u, (g u).balance = u.balance + d)
    (husers : db1.users = db.users.map (fun u => if u.id = t.user_id then g u else u))
    (htx : db1.transactions = db.transactions.map (fun x =>
      if x.id = transactionId then { x with status := "completed" } else x))
    (hsigned : signedAmount t = d)
    (hb : balanceOf db userId = some b) (hb1 : balanceOf db1 userId = some b1)
    (hne : b1 ≠ b) :
    ∃ r, recordedRows db db1 userId = [r] ∧ signedAmount r = b1 - b := by
  have h1 := balanceOf_of_users_map db db1 t.user_id userId g d b hgid hgbal husers hb
  rw [hb1] at h1
  have h2 : b1 = if userId = t.user_id then b + d else b := Option.some.inj h1
  have htid : t.id = transactionId := by
    have := List.find?_some hfind
    simpa using this
  have htmem : t ∈ db.transactions := List.mem_of_find?_eq_some hfind
  have huniq : ∀ x ∈ db.transactions, x.id = transactionId → x = t := by
    intro x hx hxid
    exact List.inj_on_of_nodup_map hk.1 hx htmem (by rw [hxid, htid])
  subst htid
  by_cases hid : userId = t.user_id
  · rw [if_pos hid] at h2
    refine ⟨{ t with status := "completed" }, ?_, ?_⟩
    · unfold recordedRows
      rw [htx]
      have := filter_map_single db.transactions
        (fun x => if x.id = t.id then { x with status := "completed" } else x)
        (fun r => decide (r.user_id = userId ∧ r.status = "completed" ∧ r ∉ db.transactions))
        t (List.Nodup.of_map _ hk.1) htmem
        (by
          have hnotin : ({ t with status := "completed" } : Transaction) ∉ db.transactions := by
            intro hin
            have := huniq _ hin rfl
            apply hnot
            rw [← this]
          simp [hid, hnotin])
        (by
          intro x hx hxt
          have hxid : ¬ x.id = t.id := fun h => hxt (huniq x hx h)
          simp [hxid, hx])
      simpa using this
    · have : signedAmount ({ t with status := "completed" } : Transaction) = signedAmount t := rfl
      rw [this, hsigned, h2]
      ring
  · rw [if_neg hid] at h2
    exact absurd h2 hne

/-- The progress update either leaves `users` as it was, or credits the caller
and appends the `profit` row. -/
theorem postBotProgress_users_cases (db : Db) (userId botId : Nat) (progress : Int) :
    (postBotProgress db userId botId progress).1.users = db.users ∨
    ∃ d, (postBotProgress db userId botId progress).1.users =
        db.users.map (fun u =>
          if u.id = userId then
            { u with
              balance := u.balance + d
              profit := u.profit + d
              active_bots := u.active_bots - 1 }
          else u) ∧
      ∃ row, (postBotProgress db userId botId progress).1.transactions =
          db.transactions ++ [row] ∧
        row.id = db.transactions_seq ∧ row.user_id = userId ∧ row.type = "profit" ∧
        row.amount = d ∧ row.status = "completed" := by
  by_cases hq : 0 ≤ progress ∧ progress ≤ 100
  · cases hb : db.trading_bots.find? (fun b => decide (b.id = botId ∧ b.user_id = userId)) with
    | none =>
      left
      simp only [postBotProgress, hb, if_neg (not_not.mpr hq)]
    | some bot =>
      by_cases h100 : progress ≥ 100
      · cases hu : db.users.find? (fun u => decide (u.id = userId)) with
        | none =>
          left
          simp only [postBotProgress, hb, if_neg (not_not.mpr hq), if_pos h100, selectUser, hu]
        | some user =>
          right
          refine ⟨convertCurrency bot.total_profit "KSH" user.currency, ?_,
            { id := db.transactions_seq
              user_id := userId
              type := "profit"
              method := "bot"
              amount := convertCurrency bot.total_profit "KSH" user.currency
              currency := user.currency
              status := "completed"
              address := none
              network := none }, ?_, ?_⟩
          · simp only [postBotProgress, hb, if_neg (not_not.mpr hq), if_pos h100, selectUser,
              hu, insertTransaction, updateUser]
          · simp only [postBotProgress, hb, if_neg (not_not.mpr hq), if_pos h100, selectUser,
              hu, insertTransaction, updateUser]
          · exact ⟨rfl, rfl, rfl, rfl, rfl⟩
      · left
        simp only [postBotProgress, hb, if_neg (not_not.mpr hq), if_neg h100]
  · left
    simp only [postBotProgress, if_pos hq]

/-- The deposit request either leaves `users` as it was, or credits the referrer
of a bonus and appends the pending deposit row and the `bonus` row. -/
theorem postDeposit_users_cases (db : Db) (userId : Nat) (amount : ℚ)
    (method currency : String) (network address : Option String) :
    (postDeposit db userId amount method currency network address).1.users = db.users ∨
    ∃ bonus : ReferralBonus,
      (postDeposit db userId amount method currency network address).1.users =
        db.users.map (fun u =>
          if u.id = bonus.referrer_id then { u with balance := u.balance + bonus.amount }
          else u) ∧
      ∃ dep row, (postDeposit db userId amount method currency network address).1.transactions =
          db.transactions ++ ([dep] ++ [row]) ∧
        dep.status = "pending" ∧
        row.id = db.transactions_seq + 1 ∧ row.user_id = bonus.referrer_id ∧
        row.type = "bonus" ∧ row.amount = bonus.amount ∧ row.status = "completed" := by
  by_cases hv : 0 < amount ∧ method ≠ "" ∧ (currency = "KSH" ∨ currency = "USD")
  · cases hu : selectUser db userId with
    | none =>
      left
      simp only [postDeposit, hu, if_neg (not_not.mpr hv)]
    | some user =>
      rw [postDeposit_fst db userId amount method currency network address user hv hu]
      unfold processReferral
      split_ifs
      · rw [pendingBonuses_insertTransaction]
        cases hp : pendingBonuses db userId with
        | nil => left; rfl
        | cons bonus tl =>
          right
          refine ⟨bonus, rfl,
            { id := db.transactions_seq
              user_id := userId
              type := "deposit"
              method := method
              amount := convertCurrency amount currency user.currency
              currency := user.currency
              status := "pending"
              address := address
              network := network },
            { id := db.transactions_seq + 1
              user_id := bonus.referrer_id
              type := "bonus"
              method := "referral"
              amount := bonus.amount
              currency := bonus.currency
              status := "completed"
              address := none
              network := none }, ?_, rfl, rfl, rfl, rfl, rfl, rfl⟩
          simp [completeBonus, insertTransaction, updateUser]
      · left; rfl
      · left; rfl
  · left
    simp only [postDeposit, if_pos hv]

/-- The admin deposit either leaves `users` as it was, or credits the user and
appends the completed `deposit` row. -/
theorem postAdminDeposit_users_cases (db : Db) (userId : Nat) (amount : ℚ)
    (currency : String) :
    (postAdminDeposit db userId amount currency).1.users = db.users ∨
    ∃ d, (postAdminDeposit db userId amount currency).1.users =
        db.users.map (fun u =>
          if u.id = userId then { u with balance := u.balance + d } else u) ∧
      ∃ row, (postAdminDeposit db userId amount currency).1.transactions =
          db.transactions ++ [row] ∧
        row.id = db.transactions_seq ∧ row.user_id = userId ∧ row.type = "deposit" ∧
        row.amount = d ∧ row.status = "completed" := by
  by_cases hv : 0 < amount ∧ (currency = "KSH" ∨ currency = "USD")
  · cases hu : selectUser db userId with
    | none =>
      left
      simp only [postAdminDeposit, hu, if_neg (not_not.mpr hv)]
    | some user =>
      right
      refine ⟨if currency ≠ user.currency then convertCurrency amount currency user.currency
        else amount, ?_,
        { id := db.transactions_seq
          user_id := userId
          type := "deposit"
          method := "admin"
          amount := if currency ≠ user.currency then
            convertCurrency amount currency user.currency else amount
          currency := user.currency
          status := "completed"
          address := none
          network := none }, ?_, ?_⟩
      · simp only [postAdminDeposit, hu, if_neg (not_not.mpr hv), insertTransaction, updateUser]
      · simp only [postAdminDeposit, hu, if_neg (not_not.mpr hv), insertTransaction, updateUser]
      · exact ⟨rfl, rfl, rfl, rfl, rfl⟩
  · left
    simp only [postAdminDeposit, if_pos hv]

/-- C14 (as stated, false): the bot purchase takes the balance of user 1 from
10000 to 0 and the admin balance update sets it to 500, and neither writes a
transaction row. -/
theorem balance_change_without_transaction :
    balanceOf dbOneKsh 1 = some 10000 ∧
    balanceOf (Op.run acceptAll dbOneKsh (Op.botPurchase 1 "alpha" 10000)).1 1 = some 0 ∧
    (Op.run acceptAll dbOneKsh (Op.botPurchase 1 "alpha" 10000)).1.transactions = [] ∧
    recordedRows dbOneKsh (Op.run acceptAll dbOneKsh (Op.botPurchase 1 "alpha" 10000)).1 1 =
      [] ∧
    balanceOf (Op.run acceptAll dbOneKsh (Op.adminBalance 1 500)).1 1 = some 500 ∧
    (Op.run acceptAll dbOneKsh (Op.adminBalance 1 500)).1.transactions = [] ∧
    recordedRows dbOneKsh (Op.run acceptAll dbOneKsh (Op.adminBalance 1 500)).1 1 = [] := by
  refine ⟨?_, ?_, ?_, ?_, ?_, ?_, ?_⟩
  all_goals
    simp [balanceOf, recordedRows, Op.run, postBots, putAdminUserBalance, dbOneKsh, sampleDb,
      sampleUser, selectUser, updateUser, convertCurrency, findBracket, brackets, List.find?]
  all_goals norm_num

/-- C14 (amended): for the bot progress update, the deposit request (referral
credit), the admin deposit and the admin status update of a transaction that
is not yet completed, on a store whose transaction ids are distinct and below
the sequence: whenever the operation changes the balance of a user, exactly
one transaction row of that user is created or completed by it, and the signed
amount of that row is the change of the balance. -/
theorem balance_change_recorded (bcryptCompare : String → Option String → Bool) (db : Db)
    (op : Op) (userId : Nat) (b b1 : ℚ)
    (hop : Op.recorded db op) (hk : transactionsKeyed db)
    (hb : balanceOf db userId = some b)
    (hb1 : balanceOf (Op.run bcryptCompare db op).1 userId = some b1)
    (hne : b1 ≠ b) :
    ∃ t, recordedRows db (Op.run bcryptCompare db op).1 userId = [t] ∧
      signedAmount t = b1 - b := by
  have hsame : ∀ db1 : Db, db1.users = db.users → balanceOf db1 userId = some b1 → False := by
    intro db1 h h1
    rw [balanceOf_of_users_eq db db1 userId h, hb] at h1
    exact hne (Option.some.inj h1).symm
  cases op with
  | botPurchase uid name investment => exact absurd hop (by simp [Op.recorded])
  | withdraw uid role amount method currency address password =>
    exact absurd hop (by simp [Op.recorded])
  | adminBalance uid balance => exact absurd hop (by simp [Op.recorded])
  | botProgress uid botId progress =>
    simp only [Op.run] at hb1 ⊢
    rcases postBotProgress_users_cases db uid botId progress with h | ⟨d, husers, row, htx, h1,
      h2, h3, h4, h5⟩
    · exact absurd hb1 (fun h1 => hsame _ h h1)
    · exact recorded_of_credit_append db _ uid userId
        (fun u =>
          { u with
            balance := u.balance + d
            profit := u.profit + d
            active_bots := u.active_bots - 1 })
        d b b1 [] row hk (fun _ => rfl)
        (fun _ => rfl) husers (by simpa using htx) (by simp) h2 h5 (le_of_eq h1.symm)
        (by simp [signedAmount, h3, h4]) hb hb1 hne
  | deposit uid amount method currency network address =>
    simp only [Op.run] at hb1 ⊢
    rcases postDeposit_users_cases db uid amount method currency network address with
      h | ⟨bonus, husers, dep, row, htx, hdep, h1, h2, h3, h4, h5⟩
    · exact absurd hb1 (fun h1 => hsame _ h h1)
    · exact recorded_of_credit_append db _ bonus.referrer_id userId
        (fun u => { u with balance := u.balance + bonus.amount }) bonus.amount b b1 [dep]
        row hk (fun _ => rfl) (fun _ => rfl) husers htx
        (by intro t ht; simp at ht; subst ht; rw [hdep]; decide) h2 h5
        (by rw [h1]; exact Nat.le_succ _) (by simp [signedAmount, h3, h4]) hb hb1 hne
  | adminDeposit uid amount currency =>
    simp only [Op.run] at hb1 ⊢
    rcases postAdminDeposit_users_cases db uid amount currency with
      h | ⟨d, husers, row, htx, h1, h2, h3, h4, h5⟩
    · exact absurd hb1 (fun h1 => hsame _ h h1)
    · exact recorded_of_credit_append db _ uid userId
        (fun u => { u with balance := u.balance + d }) d b b1 [] row hk (fun _ => rfl)
        (fun _ => rfl) husers (by simpa using htx) (by simp) h2 h5 (le_of_eq h1.symm)
        (by simp [signedAmount, h3, h4]) hb hb1 hne
  | adminTransaction transactionId status =>
    simp only [Op.run] at hb1 ⊢
    simp only [Op.recorded] at hop
    by_cases hv : status = "pending" ∨ status = "completed" ∨ status = "failed"
    · cases hfind : db.transactions.find? (fun t => decide (t.id = transactionId)) with
      | none =>
        exfalso
        apply hsame (putAdminTransaction db transactionId status).1 _ hb1
        simp only [putAdminTransaction, hfind, if_neg (not_not.mpr hv)]
      | some t =>
        have htid : t.id = transactionId := by
          have := List.find?_some hfind
          simpa using this
        have hnot : t.status ≠ "completed" :=
          hop t (List.mem_of_find?_eq_some hfind) htid
        have husers := putAdminTransaction_users db transactionId status t hv hfind
        have htx := putAdminTransaction_transactions db transactionId status t hv hfind
        by_cases hs : status = "completed"
        · subst hs
          by_cases hd : t.type = "deposit"
          · have hdw : t.type ≠ "withdraw" := by rw [hd]; decide
            exact recorded_of_completion db _ transactionId userId t t.amount b b1
              (fun u => { u with balance := u.balance + t.amount }) hk hfind hnot
              (fun _ => rfl) (fun _ => rfl) (by rw [husers]; simp [hd]) htx
              (by simp [signedAmount, hdw]) hb hb1 hne
          · by_cases hw : t.type = "withdraw"
            · exact recorded_of_completion db _ transactionId userId t (- t.amount) b b1
                (fun u => { u with balance := u.balance - t.amount }) hk hfind hnot
                (fun _ => rfl) (fun _ => by simp [sub_eq_add_neg])
                (by rw [husers]; simp [hd, hw]) htx
                (by simp [signedAmount, hw]) hb hb1 hne
            · exfalso
              apply hsame (putAdminTransaction db transactionId "completed").1 _ hb1
              rw [husers]
              simp [hd, hw]
        · exfalso
          exact hsame _ (putAdminTransaction_users_of_ne_completed db transactionId status hs)
            hb1
    · exfalso
      apply hsame (putAdminTransaction db transactionId status).1 _ hb1
      simp only [putAdminTransaction, if_pos hv]

/-- Witness of C14: completing `sampleDeposit` takes the balance of user 1 from
10000 to 15000 and records one row. -/
theorem balance_change_recorded_witness :
    ∃ t, recordedRows dbPendingDeposit
        (Op.run acceptAll dbPendingDeposit (Op.adminTransaction 1 "completed")).1 1 = [t] ∧
      signedAmount t = 15000 - 10000 :=
  balance_change_recorded acceptAll dbPendingDeposit (Op.adminTransaction 1 "completed") 1
    10000 15000
    (by simp [Op.recorded, dbPendingDeposit, sampleDeposit])
    (by simp [transactionsKeyed, dbPendingDeposit, sampleDeposit])
    (by simp [balanceOf, selectUser, dbPendingDeposit, dbOneKsh, sampleDb, sampleUser])
    (by
      simp [balanceOf, Op.run, putAdminTransaction, selectUser, updateUser, dbPendingDeposit,
        sampleDeposit, dbOneKsh, sampleDb, sampleUser]
      norm_num)
    (by norm_num)

/-! ### The withdrawal request -/

/-- C22 (as stated, false): user 1 (balance 10000) asks to withdraw 20000 with
a password that does not verify; the handler answers `400 Invalid password`,
not the insufficient-balance result, because the password is checked before
the balance. -/
theorem postWithdraw_invalid_password_first :
    postWithdraw rejectAll dbOneKsh 1 "user" 20000 "mpesa" "KSH" "0712345678" "secret" =
      (dbOneKsh, Response.json 400 "Invalid password") ∧
    (selectUser dbOneKsh 1).map (fun u => u.balance) = some 10000 := by
  refine ⟨?_, ?_⟩ <;>
    simp [postWithdraw, rejectAll, dbOneKsh, sampleDb, sampleUser, selectUser]

/-- C22 (amended): for a withdrawal request that passes the validators, of an
existing user: when the password does not verify (and the role is not `demo`)
it answers `400 Invalid password` and changes nothing; otherwise, when the
amount converted to the user's currency exceeds the balance it answers
`400 Insufficient balance` and changes nothing; otherwise it appends exactly
one pending `withdraw` row with the converted amount in the user's currency
and answers 200.  In every case the `users` table, so every balance, is
unchanged. -/
theorem postWithdraw_cases (bcryptCompare : String → Option String → Bool) (db : Db)
    (userId : Nat) (role : String) (amount : ℚ) (method currency address password : String)
    (user : User)
    (hv : 0 < amount ∧ method ≠ "" ∧ (currency = "KSH" ∨ currency = "USD") ∧
      address ≠ "" ∧ password ≠ "")
    (hu : selectUser db userId = some user) :
    (role ≠ "demo" ∧ bcryptCompare password user.password = false →
      postWithdraw bcryptCompare db userId role amount method currency address password =
        (db, Response.json 400 "Invalid password")) ∧
    (¬ (role ≠ "demo" ∧ bcryptCompare password user.password = false) →
      user.balance < convertCurrency amount currency user.currency →
      postWithdraw bcryptCompare db userId role amount method currency address password =
        (db, Response.json 400 "Insufficient balance")) ∧
    (¬ (role ≠ "demo" ∧ bcryptCompare password user.password = false) →
      ¬ user.balance < convertCurrency amount currency user.currency →
      postWithdraw bcryptCompare db userId role amount method currency address password =
        (insertTransaction db (fun id =>
          { id := id
            user_id := userId
            type := "withdraw"
            method := method
            amount := convertCurrency amount currency user.currency
            currency := user.currency
            status := "pending"
            address := some address
            network := none }),
         Response.json 200 "Withdrawal request submitted for approval")) ∧
    (postWithdraw bcryptCompare db userId role amount method currency address
      password).1.users = db.users := by
  have hv2 : ¬ ¬ (0 < amount ∧ method ≠ "" ∧ (currency = "KSH" ∨ currency = "USD") ∧
      address ≠ "" ∧ password ≠ "") := not_not.mpr hv
  refine ⟨?_, ?_, ?_, ?_⟩
  · intro hpw
    simp only [postWithdraw, if_neg hv2, hu, if_pos hpw]
  · intro hpw hlt
    simp only [postWithdraw, if_neg hv2, hu, if_neg hpw, convertedAmount_eq, if_pos hlt]
  · intro hpw hlt
    simp only [postWithdraw, if_neg hv2, hu, if_neg hpw, convertedAmount_eq, if_neg hlt]
  · simp only [postWithdraw, if_neg hv2, hu, convertedAmount_eq]
    split_ifs <;> rfl

/-- Witness of C22: user 1 of `dbOneKsh` asks for the whole balance with a
password that verifies. -/
theorem postWithdraw_cases_witness :
    (postWithdraw acceptAll dbOneKsh 1 "user" 10000 "mpesa" "KSH" "0712345678"
      "secret").1.users = dbOneKsh.users :=
  (postWithdraw_cases acceptAll dbOneKsh 1 "user" 10000 "mpesa" "KSH" "0712345678" "secret"
    (sampleUser 1 "KSH" 10000 none)
    (by refine ⟨by norm_num, by decide, Or.inl rfl, by decide, by decide⟩)
    (by simp [selectUser, dbOneKsh, sampleDb, sampleUser])).2.2.2

/-- C24 (the code breaks it): two withdrawal requests of user 1, each for the
full balance 10000, handled one after the other, are both accepted (two
pending rows, balance still 10000); once the admin completes both, the balance
is -10000. -/
theorem postWithdraw_twice_full_balance :
    (Op.run acceptAll dbOneKsh
      (Op.withdraw 1 "user" 10000 "mpesa" "KSH" "0712345678" "secret")).2 =
      Response.json 200 "Withdrawal request submitted for approval" ∧
    (Op.run acceptAll
      (runOps acceptAll dbOneKsh [Op.withdraw 1 "user" 10000 "mpesa" "KSH" "0712345678" "secret"])
      (Op.withdraw 1 "user" 10000 "mpesa" "KSH" "0712345678" "secret")).2 =
      Response.json 200 "Withdrawal request submitted for approval" ∧
    (runOps acceptAll dbOneKsh
      [Op.withdraw 1 "user" 10000 "mpesa" "KSH" "0712345678" "secret",
       Op.withdraw 1 "user" 10000 "mpesa" "KSH" "0712345678" "secret"]).transactions.map
      (fun t => (t.id, t.type, t.amount, t.status)) =
      [(1, "withdraw", 10000, "pending"), (2, "withdraw", 10000, "pending")] ∧
    balanceOf (runOps acceptAll dbOneKsh
      [Op.withdraw 1 "user" 10000 "mpesa" "KSH" "0712345678" "secret",
       Op.withdraw 1 "user" 10000 "mpesa" "KSH" "0712345678" "secret"]) 1 = some 10000 ∧
    balanceOf (runOps acceptAll dbOneKsh
      [Op.withdraw 1 "user" 10000 "mpesa" "KSH" "0712345678" "secret",
       Op.withdraw 1 "user" 10000 "mpesa" "KSH" "0712345678" "secret",
       Op.adminTransaction 1 "completed",
       Op.adminTransaction 2 "completed"]) 1 = some (-10000) := by
  refine ⟨?_, ?_, ?_, ?_, ?_⟩
  all_goals
    simp [balanceOf, runOps, Op.run, acceptAll, postWithdraw, putAdminTransaction, dbOneKsh,
      sampleDb, sampleUser, selectUser, updateUser, insertTransaction]

/-! ### The deposit request and the depositor -/

/-- C23: a deposit request that passes the validators, of an existing user whose
pending bonuses (if any) name another user as referrer, appends the pending
`deposit` row (the requested amount converted to the user's currency, in the
user's currency) and after it at most rows of type `bonus`, so exactly one
`deposit` row; the depositor's row, so the balance and the profit, is left as
it was. -/
theorem postDeposit_own_balance (db : Db) (userId : Nat) (amount : ℚ)
    (method currency : String) (network address : Option String) (user : User)
    (hv : 0 < amount ∧ method ≠ "" ∧ (currency = "KSH" ∨ currency = "USD"))
    (hu : selectUser db userId = some user)
    (hself : ∀ b ∈ pendingBonuses db userId, b.referrer_id ≠ userId) :
    (∃ rest, (postDeposit db userId amount method currency network address).1.transactions =
        db.transactions ++
          ({ id := db.transactions_seq
             user_id := userId
             type := "deposit"
             method := method
             amount := convertCurrency amount currency user.currency
             currency := user.currency
             status := "pending"
             address := address
             network := network } :: rest) ∧
      ∀ t ∈ rest, t.type = "bonus") ∧
    selectUser (postDeposit db userId amount method currency network address).1 userId =
      some user ∧
    balanceOf (postDeposit db userId amount method currency network address).1 userId =
      some user.balance := by
  have hid := selectUser_id db userId user hu
  have hsel : ∀ db1 : Db, selectUser db1 userId = some user →
      balanceOf db1 userId = some user.balance := by
    intro db1 h
    simp [balanceOf, h]
  rw [postDeposit_fst db userId amount method currency network address user hv hu]
  unfold processReferral
  rw [pendingBonuses_insertTransaction]
  have hplain : selectUser (insertTransaction db (fun id =>
      ({ id := id
         user_id := userId
         type := "deposit"
         method := method
         amount := convertCurrency amount currency user.currency
         currency := user.currency
         status := "pending"
         address := address
         network := network } : Transaction))) userId = some user := hu
  split_ifs
  · cases hp : pendingBonuses db userId with
    | nil =>
      exact ⟨⟨[], rfl, by simp⟩, hplain, hsel _ hplain⟩
    | cons bonus tl =>
      have hne : bonus.referrer_id ≠ userId := hself bonus (by rw [hp]; exact List.mem_cons_self _ _)
      have hsel2 : selectUser (completeBonus (insertTransaction db (fun id =>
          ({ id := id
             user_id := userId
             type := "deposit"
             method := method
             amount := convertCurrency amount currency user.currency
             currency := user.currency
             status := "pending"
             address := address
             network := network } : Transaction))) bonus) userId = some user := by
        rw [selectUser_completeBonus, hplain]
        have : ¬ user.id = bonus.referrer_id := by
          rw [hid]
          exact fun h => hne h.symm
        simp [this]
      refine ⟨⟨[{ id := db.transactions_seq + 1
                  user_id := bonus.referrer_id
                  type := "bonus"
                  method := "referral"
                  amount := bonus.amount
                  currency := bonus.currency
                  status := "completed"
                  address := none
                  network := none }], ?_, by simp⟩, hsel2, hsel _ hsel2⟩
      simp [completeBonus, insertTransaction, updateUser]
  · exact ⟨⟨[], rfl, by simp⟩, hplain, hsel _ hplain⟩
  · exact ⟨⟨[], rfl, by simp⟩, hplain, hsel _ hplain⟩

/-- Witness of C23: user 2 of `dbReferral`, referred by user 1, deposits 10000. -/
theorem postDeposit_own_balance_witness :
    selectUser (postDeposit dbReferral 2 10000 "mpesa" "KSH" none none).1 2 =
      some (sampleUser 2 "KSH" 200 (some "ab12cd34ef")) :=
  (postDeposit_own_balance dbReferral 2 10000 "mpesa" "KSH" none none
    (sampleUser 2 "KSH" 200 (some "ab12cd34ef"))
    (by refine ⟨by norm_num, by decide, Or.inl rfl⟩)
    (by simp [selectUser, dbReferral, sampleDb, sampleUser])
    (by simp [pendingBonuses, dbReferral, sampleDb])).2.1

/-- C26: for every investment amount > 0 of a user whose currency is KSH or
USD, `brackets.find` on the amount converted to KSH returns a bracket, so
reading `.multiplier` of its result does not fail; the purchase handler then
never answers `500 Server error` for an existing user. -/
theorem findBracket_total (amount : ℚ) (currency : String) (hpos : 0 < amount)
    (hc : currency = "KSH" ∨ currency = "USD") :
    (∃ br, findBracket (convertCurrency amount currency "KSH") = some br ∧
      profitMultiplier (convertCurrency amount currency "KSH") = some br.multiplier) ∧
    ∀ (db : Db) (userId : Nat) (name : String) (user : User),
      selectUser db userId = some user → user.currency = currency →
      (postBots db userId name amount).2 ≠ Response.json 500 "Server error" := by
  obtain ⟨br, hbr⟩ := findBracket_isSome (convertCurrency amount currency "KSH")
    (le_of_lt (convertCurrency_pos amount currency "KSH" hpos))
  refine ⟨⟨br, hbr, by simp [profitMultiplier, hbr]⟩, ?_⟩
  intro db userId name user hu huc
  subst huc
  by_cases hname : name ≠ ""
  · by_cases hb : amount > user.balance
    · simp [postBots, hname, hpos, hu, hb]
    · rw [postBots_success db userId name amount user br hname hpos hu (not_lt.mp hb) hbr]
      simp
  · simp [postBots, hname]

/-- Witness of C26: 0.5 USD, converted to 75 KSH, falls in the `min: 0` bracket. -/
theorem findBracket_total_witness :
    ∃ br, findBracket (convertCurrency 0.5 "USD" "KSH") = some br ∧
      profitMultiplier (convertCurrency 0.5 "USD" "KSH") = some br.multiplier :=
  (findBracket_total 0.5 "USD" (by norm_num) (Or.inr rfl)).1

/-! ### Purchase followed by completion -/

/-- The caller's row and the response after a completion request (progress
100) for a bot of the caller. -/
theorem postBotProgress_100_user (db : Db) (userId botId : Nat) (bot : TradingBot)
    (user : User)
    (hb : db.trading_bots.find? (fun b => decide (b.id = botId ∧ b.user_id = userId)) =
      some bot)
    (hu : selectUser db userId = some user) :
    (postBotProgress db userId botId 100).2 = Response.json 200 "Bot progress updated" ∧
    selectUser (postBotProgress db userId botId 100).1 userId =
      some { user with
        balance := user.balance + convertCurrency bot.total_profit "KSH" user.currency
        profit := user.profit + convertCurrency bot.total_profit "KSH" user.currency
        active_bots := user.active_bots - 1 } := by
  have hid := selectUser_id db userId user hu
  have hu1 : db.users.find? (fun u => decide (u.id = userId)) = some user := hu
  refine ⟨?_, ?_⟩
  · simp only [postBotProgress, hb, selectUser, hu1]
    simp
  · have husers : (postBotProgress db userId botId 100).1.users =
        db.users.map (fun u =>
          if u.id = userId then
            { u with
              balance := u.balance + convertCurrency bot.total_profit "KSH" user.currency
              profit := u.profit + convertCurrency bot.total_profit "KSH" user.currency
              active_bots := u.active_bots - 1 }
          else u) := by
      simp only [postBotProgress, hb, selectUser, hu1]
      simp [insertTransaction, updateUser]
    unfold selectUser
    rw [husers, find?_map_of_stable, hu1]
    · simp [hid]
    · intro u
      by_cases h : u.id = userId <;> simp [h]

/-- A USD amount converts to KSH by multiplication by 150. -/
theorem convertCurrency_USD_KSH (x : ℚ) : convertCurrency x "USD" "KSH" = 150 * x := by
  simp [convertCurrency, EXCHANGE_RATES.USD_TO_KSH]
  norm_num
  ring

/-- C25: a USD user (bot ids drawn from the sequence) invests `a` USD with
`0 < a ≤ balance` and then drives the new bot to 100 without a change of
currency in between: with `m` the multiplier selected for `150 * a` in the KSH
bracket table, `convert(convert(a, USD, KSH) * m, KSH, USD) = a * m`; the
completion credits exactly `a * m` to balance and profit, so over purchase
plus completion the balance changes by `a * (m - 1)`. -/
theorem bot_profit_usd (db : Db) (userId : Nat) (name : String) (a : ℚ) (user : User)
    (hname : name ≠ "") (hpos : 0 < a)
    (hu : selectUser db userId = some user) (hc : user.currency = "USD")
    (hle : a ≤ user.balance)
    (hkey : ∀ b ∈ db.trading_bots, b.id < db.trading_bots_seq) :
    ∃ m, profitMultiplier (150 * a) = some m ∧
      convertCurrency (convertCurrency a "USD" "KSH" * m) "KSH" "USD" = a * m ∧
      (postBots db userId name a).2 = Response.json 201 "Trading bot created successfully" ∧
      (∃ u1, selectUser (postBots db userId name a).1 userId = some u1 ∧
        u1.balance = user.balance - a ∧ u1.profit = user.profit) ∧
      (postBotProgress (postBots db userId name a).1 userId db.trading_bots_seq 100).2 =
        Response.json 200 "Bot progress updated" ∧
      ∃ u2, selectUser (postBotProgress (postBots db userId name a).1 userId
          db.trading_bots_seq 100).1 userId = some u2 ∧
        u2.balance = user.balance - a + a * m ∧
        u2.balance = user.balance + a * (m - 1) ∧
        u2.profit = user.profit + a * m ∧
        u2.active_bots = user.active_bots := by
  have hconv : convertCurrency a user.currency "KSH" = 150 * a := by
    rw [hc, convertCurrency_USD_KSH]
  obtain ⟨br, hbr⟩ := findBracket_isSome (convertCurrency a user.currency "KSH")
    (le_of_lt (convertCurrency_pos a user.currency "KSH" hpos))
  have hid := selectUser_id db userId user hu
  have hu0 : db.users.find? (fun u => decide (u.id = userId)) = some user := hu
  have hback : convertCurrency (convertCurrency a "USD" "KSH" * br.multiplier) "KSH" "USD" =
      a * br.multiplier := by
    rw [convertCurrency_KSH_USD, convertCurrency_USD_KSH]
    ring
  have hrun := postBots_success db userId name a user br hname hpos hu hle hbr
  have hu1 : selectUser (postBots db userId name a).1 userId =
      some { user with balance := user.balance - a, active_bots := user.active_bots + 1 } := by
    rw [hrun]
    simp only [selectUser, updateUser]
    rw [find?_map_of_stable, hu0]
    · simp [hid]
    · intro u
      by_cases h : u.id = userId <;> simp [h]
  have hb1 : (postBots db userId name a).1.trading_bots.find?
      (fun b => decide (b.id = db.trading_bots_seq ∧ b.user_id = userId)) =
      some { id := db.trading_bots_seq
             user_id := userId
             name := name
             investment := convertCurrency a user.currency "KSH"
             daily_profit := convertCurrency a user.currency "KSH" * br.multiplier / 30
             total_profit := convertCurrency a user.currency "KSH" * br.multiplier
             progress := 0
             image_url := "https://images.unsplash.com/photo-1639762681485-074b7f938ba0"
             status := "active" } := by
    rw [hrun]
    simp only [updateUser]
    rw [List.find?_append]
    have hnone : db.trading_bots.find?
        (fun b => decide (b.id = db.trading_bots_seq ∧ b.user_id = userId)) = none := by
      rw [List.find?_eq_none]
      intro b hbm
      have := hkey b hbm
      simp
      intro h
      omega
    rw [hnone]
    simp
  obtain ⟨hresp, huser⟩ := postBotProgress_100_user (postBots db userId name a).1 userId
    db.trading_bots_seq _ _ hb1 hu1
  refine ⟨br.multiplier, ?_, hback, ?_, ⟨_, hu1, rfl, rfl⟩, hresp, _, huser, ?_, ?_, ?_, ?_⟩
  · rw [← hconv]
    simp [profitMultiplier, hbr]
  · rw [hrun]
  · simp only [hc]
    rw [convertCurrency_KSH_USD, convertCurrency_USD_KSH]
    ring
  · simp only [hc]
    rw [convertCurrency_KSH_USD, convertCurrency_USD_KSH]
    ring
  · simp only [hc]
    rw [convertCurrency_KSH_USD, convertCurrency_USD_KSH]
    ring
  · simp

/-- Witness of C25: a USD user with balance 100 invests 100 USD. -/
theorem bot_profit_usd_witness :
    ∃ m, profitMultiplier (150 * 100) = some m ∧
      convertCurrency (convertCurrency 100 "USD" "KSH" * m) "KSH" "USD" = 100 * m :=
  have h := bot_profit_usd (sampleDb [sampleUser 1 "USD" 100 none]) 1 "alpha" 100
    (sampleUser 1 "USD" 100 none) (by decide) (by norm_num)
    (by simp [selectUser, sampleDb, sampleUser]) (by simp [sampleUser])
    (by simp [sampleUser]) (by simp [sampleDb])
  h.imp (fun _ hm => ⟨hm.1, hm.2.1⟩)

/-! ### Signup -/

/-- The store after a non-demo signup that passes every check: the new user
row, the sign-up bonus transaction, then the referral block. -/
theorem postSignup_fst (isEmail isMobilePhone : String → Bool) (bcryptHash : String → String)
    (randomCode : String) (db : Db) (name email password : String)
    (phone country currencyField referralCode : Option String)
    (hv : name ≠ "" ∧ isEmail email = true ∧ 8 ≤ password.length ∧
      phone.all isMobilePhone = true ∧
      country.all (fun c => decide (2 ≤ c.length)) = true ∧
      currencyField.all (fun c => decide (c = "KSH" ∨ c = "USD")) = true)
    (hemail : db.users.any (fun u => decide (u.email = email)) = false)
    (hnew : db.users.any (fun u => decide (u.referral_code = some randomCode)) = false) :
    postSignup isEmail isMobilePhone bcryptHash randomCode db name email password phone
        country currencyField referralCode false =
      (recordReferral
        (insertTransaction
          { db with
            users := db.users ++
              [newUserRow db.users_seq email (currencyField.getD "KSH") randomCode referralCode
                (some (bcryptHash password)) false]
            users_seq := db.users_seq + 1 }
          (fun id =>
            { id := id
              user_id := db.users_seq
              type := "bonus"
              method := "signup"
              amount := bonusAmount (currencyField.getD "KSH")
              currency := currencyField.getD "KSH"
              status := "completed"
              address := none
              network := none }))
        db.users_seq (currencyField.getD "KSH") referralCode false,
       Response.json 201 "User created successfully") := by
  have hv2 := not_not.mpr hv
  simp only [postSignup, if_neg hv2, hemail, hnew]
  simp

/-- The referral block when the code belongs to a user: one pending bonus row
and one more referral for every row with the referrer's id. -/
theorem recordReferral_found (db2 : Db) (userId : Nat) (currency code : String)
    (referrer : User) (hcode : code ≠ "")
    (hfind : db2.users.find? (fun u => decide (u.referral_code = some code)) = some referrer) :
    recordReferral db2 userId currency (some code) false =
      { db2 with
        users := db2.users.map (fun u =>
          if u.id = referrer.id then { u with referrals := u.referrals + 1 } else u)
        referral_bonuses := db2.referral_bonuses ++
          [ { id := db2.referral_bonuses_seq
              referrer_id := referrer.id
              referred_id := userId
              amount := convertCurrency (bonusAmount currency) currency referrer.currency
              currency := referrer.currency
              status := "pending" } ]
        referral_bonuses_seq := db2.referral_bonuses_seq + 1 } := by
  have ht : truthy (some code) = true := by simp [truthy, hcode]
  simp only [recordReferral, ht, hfind, convertedAmount_eq, updateUser]
  simp

/-- The referral block when no user owns the code: nothing changes. -/
theorem recordReferral_unknown (db2 : Db) (userId : Nat) (currency : String)
    (referralCode : Option String) (isDemo : Bool)
    (hfind : db2.users.find? (fun u => decide (u.referral_code = referralCode)) = none) :
    recordReferral db2 userId currency referralCode isDemo = db2 := by
  unfold recordReferral
  rw [hfind]
  split_ifs <;> rfl

/-- C21: a non-demo signup that passes every check (validators, new email, new
code) with a non-empty referral code.  When a user owns the code: the answer
is 201, exactly one `referral_bonuses` row is appended, pending, with the
owner of the code as referrer, the new user as referred, the referrer's
currency, and as amount the sign-up bonus of the new user's currency (200 for
KSH, 1.33 for USD) converted to the referrer's currency; and `referrals` of
the referrer grows by exactly 1.  When no user owns the code, no bonus row is
created and no existing user row changes.  Completing a bonus later leaves
every `referrals` count as it is. -/
theorem postSignup_referral (isEmail isMobilePhone : String → Bool)
    (bcryptHash : String → String) (randomCode : String) (db : Db)
    (name email password : String) (phone country currencyField : Option String)
    (code : String)
    (hv : name ≠ "" ∧ isEmail email = true ∧ 8 ≤ password.length ∧
      phone.all isMobilePhone = true ∧
      country.all (fun c => decide (2 ≤ c.length)) = true ∧
      currencyField.all (fun c => decide (c = "KSH" ∨ c = "USD")) = true)
    (hemail : db.users.any (fun u => decide (u.email = email)) = false)
    (hnew : db.users.any (fun u => decide (u.referral_code = some randomCode)) = false)
    (hcode : code ≠ "") :
    (∀ referrer,
      db.users.find? (fun u => decide (u.referral_code = some code)) = some referrer →
      (postSignup isEmail isMobilePhone bcryptHash randomCode db name email password phone
        country currencyField (some code) false).2 =
        Response.json 201 "User created successfully" ∧
      (postSignup isEmail isMobilePhone bcryptHash randomCode db name email password phone
        country currencyField (some code) false).1.referral_bonuses =
        db.referral_bonuses ++
          [ { id := db.referral_bonuses_seq
              referrer_id := referrer.id
              referred_id := db.users_seq
              amount := convertCurrency (bonusAmount (currencyField.getD "KSH"))
                (currencyField.getD "KSH") referrer.currency
              currency := referrer.currency
              status := "pending" } ] ∧
      (postSignup isEmail isMobilePhone bcryptHash randomCode db name email password phone
        country currencyField (some code) false).1.users =
        (db.users ++
          [newUserRow db.users_seq email (currencyField.getD "KSH") randomCode (some code)
            (some (bcryptHash password)) false]).map (fun u =>
          if u.id = referrer.id then { u with referrals := u.referrals + 1 } else u) ∧
      { referrer with referrals := referrer.referrals + 1 } ∈
        (postSignup isEmail isMobilePhone bcryptHash randomCode db name email password phone
          country currencyField (some code) false).1.users) ∧
    ((∀ u ∈ db.users, u.referral_code ≠ some code) → code ≠ randomCode →
      (postSignup isEmail isMobilePhone bcryptHash randomCode db name email password phone
        country currencyField (some code) false).1.referral_bonuses = db.referral_bonuses ∧
      (postSignup isEmail isMobilePhone bcryptHash randomCode db name email password phone
        country currencyField (some code) false).1.users =
        db.users ++
          [newUserRow db.users_seq email (currencyField.getD "KSH") randomCode (some code)
            (some (bcryptHash password)) false]) ∧
    bonusAmount "KSH" = 200 ∧ bonusAmount "USD" = 1.33 ∧
    ∀ (d : Db) (bonus : ReferralBonus),
      (completeBonus d bonus).users.map (fun u => u.referrals) =
        d.users.map (fun u => u.referrals) := by
  have hfst := postSignup_fst isEmail isMobilePhone bcryptHash randomCode db name email
    password phone country currencyField (some code) hv hemail hnew
  refine ⟨?_, ?_, by simp [bonusAmount], by simp [bonusAmount], ?_⟩
  · intro referrer href
    have hfind : (db.users ++
        [newUserRow db.users_seq email (currencyField.getD "KSH") randomCode (some code)
          (some (bcryptHash password)) false]).find?
        (fun u => decide (u.referral_code = some code)) = some referrer := by
      rw [List.find?_append, href]
      rfl
    rw [hfst]
    rw [recordReferral_found _ db.users_seq (currencyField.getD "KSH") code referrer hcode
      (by simpa [insertTransaction] using hfind)]
    refine ⟨rfl, by simp [insertTransaction], by simp [insertTransaction], ?_⟩
    simp only [insertTransaction]
    apply List.mem_map.mpr
    refine ⟨referrer, ?_, by simp⟩
    exact List.mem_append_left _ (List.mem_of_find?_eq_some href)
  · intro hnone hne
    have hfind : (db.users ++
        [newUserRow db.users_seq email (currencyField.getD "KSH") randomCode (some code)
          (some (bcryptHash password)) false]).find?
        (fun u => decide (u.referral_code = some code)) = none := by
      rw [List.find?_eq_none]
      intro u hu
      rcases List.mem_append.mp hu with h | h
      · simpa using hnone u h
      · have : u = newUserRow db.users_seq email (currencyField.getD "KSH") randomCode
            (some code) (some (bcryptHash password)) false := by simpa using h
        subst this
        simp [newUserRow]
        exact fun h => hne h.symm
    rw [hfst, recordReferral_unknown _ _ _ _ _ (by simpa [insertTransaction] using hfind)]
    exact ⟨rfl, rfl⟩
  · intro d bonus
    simp only [completeBonus, insertTransaction, updateUser, List.map_map]
    apply List.map_congr_left
    intro u _
    by_cases h : u.id = bonus.referrer_id <;> simp [h]

/-- Witness of C21: a USD user signs up with the code of user 1 of
`dbCodeOwner`, a KSH user. -/
theorem postSignup_referral_witness :
    (postSignup anyString anyString (fun p => p) "0f1e2d3c4b" dbCodeOwner "Amina"
      "amina@example.com" "longpassword" none none (some "USD") (some "ab12cd34ef")
      false).1.referral_bonuses =
      dbCodeOwner.referral_bonuses ++
        [ { id := dbCodeOwner.referral_bonuses_seq
            referrer_id := 1
            referred_id := dbCodeOwner.users_seq
            amount := convertCurrency (bonusAmount ((some "USD" : Option String).getD "KSH"))
              ((some "USD" : Option String).getD "KSH") "KSH"
            currency := "KSH"
            status := "pending" } ] :=
  ((postSignup_referral anyString anyString (fun p => p) "0f1e2d3c4b" dbCodeOwner "Amina"
    "amina@example.com" "longpassword" none none (some "USD") "ab12cd34ef"
    (by refine ⟨by decide, rfl, by decide, rfl, rfl, by decide⟩)
    (by decide)
    (by simp [dbCodeOwner, sampleDb, sampleUser])
    (by decide)).1
    { sampleUser 1 "KSH" 200 none with referral_code := some "ab12cd34ef" }
    (by simp [dbCodeOwner, sampleDb, sampleUser])).2.1

/-! ### The two status updates -/

/-- The rows a filter keeps start with the row `find?` returns. -/
theorem filter_of_find? {α : Type} (p : α → Bool) (l : List α) :
    (l.find? p = none → l.filter p = []) ∧
    (∀ t, l.find? p = some t → ∃ tl, l.filter p = t :: tl) := by
  induction l with
  | nil => simp
  | cons a l ih =>
    by_cases h : p a = true
    · refine ⟨by simp [List.find?_cons, h], ?_⟩
      intro t ht
      have : a = t := by simpa [List.find?_cons, h] using ht
      subst this
      exact ⟨l.filter p, by simp [List.filter_cons, h]⟩
    · have hf : p a = false := by simpa using h
      refine ⟨?_, ?_⟩
      · intro hn
        have hn2 : l.find? p = none := by simpa [List.find?_cons, hf] using hn
        simp [List.filter_cons, hf, ih.1 hn2]
      · intro t ht
        have ht2 : l.find? p = some t := by simpa [List.find?_cons, hf] using ht
        obtain ⟨tl, htl⟩ := ih.2 t ht2
        exact ⟨tl, by simp [List.filter_cons, hf, htl]⟩

/-- The `users` table after the admin server's status update. -/
theorem AdminServer.putTransactionStatus_users (db : Db) (id : Nat) (status : String) :
    (db.transactions.find? (fun t => decide (t.id = id)) = none →
      (AdminServer.putTransactionStatus db id status).1.users = db.users) ∧
    (∀ t, db.transactions.find? (fun t => decide (t.id = id)) = some t →
      (AdminServer.putTransactionStatus db id status).1.users =
        if status = "completed" ∧ t.type = "deposit" then
          db.users.map (fun u =>
            if u.id = t.user_id then { u with balance := u.balance + t.amount } else u)
        else db.users) := by
  have hfm : (db.transactions.map (fun t =>
        if t.id = id then { t with status := status } else t)).filter
        (fun t => decide (t.id = id)) =
      (db.transactions.filter (fun t => decide (t.id = id))).map (fun t =>
        if t.id = id then { t with status := status } else t) := by
    rw [List.filter_map]
    congr 1
    apply List.filter_congr
    intro x _
    by_cases h : x.id = id <;> simp [h]
  refine ⟨?_, ?_⟩
  · intro hnone
    have h0 := (filter_of_find? (fun t : Transaction => decide (t.id = id)) db.transactions).1
      hnone
    simp only [AdminServer.putTransactionStatus, hfm, h0, List.map_nil]
  · intro t hfind
    obtain ⟨tl, htl⟩ :=
      (filter_of_find? (fun t : Transaction => decide (t.id = id)) db.transactions).2 t hfind
    have htid : t.id = id := by
      have := List.find?_some hfind
      simpa using this
    simp only [AdminServer.putTransactionStatus, hfm, htl, List.map_cons, htid, if_true]
    by_cases hs : status = "completed"
    · by_cases hd : t.type = "deposit"
      · simp [hs, hd, AdminServer.increment_user_balance, updateUser]
      · simp [hs, hd]
    · simp [hs]

/-- Where the two status updates do agree: for every transaction id and every
status, unless the status is `completed` and the transaction is of type
`withdraw`, the admin
server's status update leaves the same `users` table as the main server's:
credit of `amount` to the owner for a completed deposit, nothing otherwise
(also for an unknown id or a status outside pending, completed, failed).  For
a completed withdraw the admin server's route changes no balance. -/
theorem putTransactionStatus_agrees (db : Db) (id : Nat) (status : String)
    (hnw : ∀ t, db.transactions.find? (fun t => decide (t.id = id)) = some t →
      ¬ (status = "completed" ∧ t.type = "withdraw")) :
    (AdminServer.putTransactionStatus db id status).1.users =
      (putAdminTransaction db id status).1.users ∧
    ∀ t, db.transactions.find? (fun t => decide (t.id = id)) = some t →
      t.type = "withdraw" →
      (AdminServer.putTransactionStatus db id "completed").1.users = db.users := by
  refine ⟨?_, ?_⟩
  · cases hfind : db.transactions.find? (fun t => decide (t.id = id)) with
    | none =>
      rw [(AdminServer.putTransactionStatus_users db id status).1 hfind]
      by_cases hv : status = "pending" ∨ status = "completed" ∨ status = "failed"
      · simp only [putAdminTransaction, hfind, if_neg (not_not.mpr hv)]
      · simp only [putAdminTransaction, if_pos hv]
    | some t =>
      rw [(AdminServer.putTransactionStatus_users db id status).2 t hfind]
      by_cases hs : status = "completed"
      · have hv : status = "pending" ∨ status = "completed" ∨ status = "failed" :=
          Or.inr (Or.inl hs)
        have hw : ¬ t.type = "withdraw" := fun h => hnw t hfind ⟨hs, h⟩
        rw [putAdminTransaction_users db id status t hv hfind]
        simp [hs, hw]
      · rw [putAdminTransaction_users_of_ne_completed db id status hs]
        simp [hs]
  · intro t hfind hw
    rw [(AdminServer.putTransactionStatus_users db id "completed").2 t hfind]
    have : ¬ t.type = "deposit" := by rw [hw]; decide
    simp [this]

/-- The agreement at a concrete input: completing the deposit `sampleDeposit`
on both servers. -/
theorem putTransactionStatus_agrees_witness :
    (AdminServer.putTransactionStatus dbPendingDeposit 1 "completed").1.users =
      (putAdminTransaction dbPendingDeposit 1 "completed").1.users :=
  (putTransactionStatus_agrees dbPendingDeposit 1 "completed"
    (by
      intro t ht
      have : t = sampleDeposit := by
        simpa [dbPendingDeposit, sampleDeposit] using ht.symm
      subst this
      simp [sampleDeposit])).1

/-- C27 (the code breaks it): for the pending withdrawal `sampleWithdraw` (4000
KSH, owner balance 10000) and status `completed`, the main server debits the
owner (balance 6000), while the admin server's transactions route answers 200,
marks the row `completed` and leaves the balance at 10000: it applies the
balance change of a completion to deposits only. -/
theorem putTransactionStatus_withdraw_differs :
    balanceOf (putAdminTransaction dbPendingWithdraw 1 "completed").1 1 = some 6000 ∧
    balanceOf (AdminServer.putTransactionStatus dbPendingWithdraw 1 "completed").1 1 =
      some 10000 ∧
    (AdminServer.putTransactionStatus dbPendingWithdraw 1 "completed").1.transactions.map
      (fun t => (t.id, t.type, t.status)) = [(1, "withdraw", "completed")] ∧
    (AdminServer.putTransactionStatus dbPendingWithdraw 1 "completed").2 =
      Response.json 200 "Transaction completed successfully" := by
  refine ⟨?_, ?_, ?_, ?_⟩
  · simp [balanceOf, putAdminTransaction, dbPendingWithdraw, sampleWithdraw, dbOneKsh,
      sampleDb, sampleUser, selectUser, updateUser]
    norm_num
  · simp [balanceOf, AdminServer.putTransactionStatus, dbPendingWithdraw, sampleWithdraw,
      dbOneKsh, sampleDb, sampleUser, selectUser]
  · simp [AdminServer.putTransactionStatus, dbPendingWithdraw, sampleWithdraw, dbOneKsh,
      sampleDb, sampleUser]
  · simp [AdminServer.putTransactionStatus, dbPendingWithdraw, sampleWithdraw, dbOneKsh,
      sampleDb, sampleUser]

/-! ### Admin authentication -/

/-- C28 (the code breaks it): with a token that verifies and carries the role
`user`, `authenticateAdmin` of `adminServer.js` calls `next()`, while
`authenticateAdmin` of `server.js` answers `403 Admin access required`; the
admin server calls `next()` for every `Bearer` token that verifies, whatever
its role. -/
theorem adminServer_authenticateAdmin_ignores_role :
    AdminServer.authenticateAdmin verifyUserToken (some "Bearer usertoken") =
      AuthResult.next { userId := 7, role := "user" } ∧
    authenticateAdmin verifyUserToken (some "Bearer usertoken") =
      AuthResult.reject 403 "Admin access required" ∧
    ∀ (jwtVerify : String → Option TokenPayload) (token : String) (decoded : TokenPayload),
      jwtVerify token = some decoded →
      AdminServer.authenticateAdmin jwtVerify (some ("Bearer " ++ token)) =
        AuthResult.next decoded := by
  refine ⟨by decide, by decide, ?_⟩
  intro jwtVerify token decoded hv
  have hne : ¬ ("Bearer " ++ token = "") := by
    intro h
    have := congrArg String.length h
    simp at this
    exact absurd this.1 (by decide)
  have hpre : "Bearer ".toList.isPrefixOf ("Bearer " ++ token).toList = true := by
    simp [String.toList]
  have hdrop : String.mk (("Bearer " ++ token).toList.drop 7) = token := by
    simp [String.toList]
  simp only [AdminServer.authenticateAdmin, hne, hpre, hdrop, hv]
  simp

/-! ### The demo bot payout -/

/-- One tick for a single running bot at time speed 1: the progress grows by
a tenth and the bot pays one ten-thousandth of its daily profit. -/
theorem ForexDemoTrader.updateBotProgress_single (balance profit : ℚ)
    (bot : ForexDemoTrader.Bot) (hlt : bot.progress + 1 / 10 ≤ 100)
    (hd : 0 < bot.dailyProfit) :
    ForexDemoTrader.updateBotProgress
        { balance := balance, profit := profit, bots := [bot], timeSpeed := 1 } =
      { balance := balance + bot.dailyProfit / 10000
        profit := profit + bot.dailyProfit / 10000
        bots := [{ bot with progress := bot.progress + 1 / 10 }]
        timeSpeed := 1 } := by
  have hp : ¬ bot.progress ≥ 100 := by
    intro h
    have : bot.progress + 1 / 10 > 100 := by linarith
    linarith
  have he : bot.dailyProfit * (0.1 * 1) / (100 / (0.1 * 1)) = bot.dailyProfit / 10000 := by
    norm_num
    ring
  have hpos : bot.dailyProfit / 10000 > 0 := by positivity
  have hmin : min 100 (bot.progress + 0.1 * 1) = bot.progress + 1 / 10 := by
    rw [min_eq_right]
    · norm_num
    · norm_num
      linarith
  simp only [ForexDemoTrader.updateBotProgress, ForexDemoTrader.tickBot, List.length_singleton,
    one_ne_zero, if_false, List.foldl_cons, List.foldl_nil, if_neg hp, List.nil_append,
    zero_add, he, hmin, if_pos hpos]

/-- After `n ≤ 1000` ticks a single bot started at progress 0 stands at
`n / 10` and has paid `n` ten-thousandths of its daily profit. -/
theorem ForexDemoTrader.ticks_single (balance profit : ℚ) (bot : ForexDemoTrader.Bot)
    (h0 : bot.progress = 0) (hd : 0 < bot.dailyProfit) (n : Nat) (hn : n ≤ 1000) :
    ForexDemoTrader.ticks n
        { balance := balance, profit := profit, bots := [bot], timeSpeed := 1 } =
      { balance := balance + n * (bot.dailyProfit / 10000)
        profit := profit + n * (bot.dailyProfit / 10000)
        bots := [{ bot with progress := n / 10 }]
        timeSpeed := 1 } := by
  induction n with
  | zero =>
    cases bot with
    | mk name investment dailyProfit totalProfit progress =>
      simp only at h0
      subst h0
      simp [ForexDemoTrader.ticks]
  | succ k ih =>
    have hk : k ≤ 1000 := Nat.le_of_succ_le hn
    have hkq : (k : ℚ) + 1 ≤ 1000 := by exact_mod_cast hn
    unfold ForexDemoTrader.ticks at ih ⊢
    rw [Function.iterate_succ_apply', ih hk,
      ForexDemoTrader.updateBotProgress_single (balance + k * (bot.dailyProfit / 10000))
        (profit + k * (bot.dailyProfit / 10000)) { bot with progress := k / 10 }
        (by simp only; linarith) hd]
    simp
    refine ⟨by ring, by ring, by ring⟩

/-- Once the only bot stands at 100 a tick changes nothing. -/
theorem ForexDemoTrader.updateBotProgress_done (balance profit : ℚ)
    (bot : ForexDemoTrader.Bot) (h : bot.progress ≥ 100) :
    ForexDemoTrader.updateBotProgress
        { balance := balance, profit := profit, bots := [bot], timeSpeed := 1 } =
      { balance := balance, profit := profit, bots := [bot], timeSpeed := 1 } := by
  simp [ForexDemoTrader.updateBotProgress, ForexDemoTrader.tickBot, h]

/-- C29 (the code breaks it): for every investment `v` with `0 < v ≤ 10000`,
the bot created from the initial data has `totalProfit = 2.25 * v`, and the
1000 ticks that take it from 0 to 100 at time speed 1 add `0.0075 * v` to
balance and to profit, one three-hundredth of `totalProfit`; a further tick
adds nothing.  For `v = 1000` the bot promises 2250 and pays 7.5. -/
theorem demo_bot_pays_a_fraction :
    (∀ v : ℚ, 0 < v → v ≤ 10000 →
      (ForexDemoTrader.createBot ForexDemoTrader.initial "alpha" v).1.bots.map
        (fun b => (b.totalProfit, b.progress)) = [(2.25 * v, 0)] ∧
      (ForexDemoTrader.ticks 1000
        (ForexDemoTrader.createBot ForexDemoTrader.initial "alpha" v).1).bots.map
        (fun b => b.progress) = [100] ∧
      (ForexDemoTrader.ticks 1000
        (ForexDemoTrader.createBot ForexDemoTrader.initial "alpha" v).1).profit =
        0.0075 * v ∧
      (ForexDemoTrader.ticks 1000
        (ForexDemoTrader.createBot ForexDemoTrader.initial "alpha" v).1).balance =
        (ForexDemoTrader.createBot ForexDemoTrader.initial "alpha" v).1.balance +
          0.0075 * v ∧
      0.0075 * v < 2.25 * v ∧
      ForexDemoTrader.ticks 1001
        (ForexDemoTrader.createBot ForexDemoTrader.initial "alpha" v).1 =
        ForexDemoTrader.ticks 1000
          (ForexDemoTrader.createBot ForexDemoTrader.initial "alpha" v).1) ∧
    (ForexDemoTrader.ticks 1000
      (ForexDemoTrader.createBot ForexDemoTrader.initial "alpha" 1000).1).profit = 7.5 ∧
    (ForexDemoTrader.createBot ForexDemoTrader.initial "alpha" 1000).1.bots.map
      (fun b => b.totalProfit) = [2250] := by
  have hmain : ∀ v : ℚ, 0 < v → v ≤ 10000 →
      (ForexDemoTrader.createBot ForexDemoTrader.initial "alpha" v).1 =
        { balance := 10000 - v
          profit := 0
          bots := [{ name := "alpha", investment := v, dailyProfit := v * 2.25 / 30,
                     totalProfit := v * 2.25, progress := 0 }]
          timeSpeed := 1 } ∧
      ForexDemoTrader.ticks 1000
          (ForexDemoTrader.createBot ForexDemoTrader.initial "alpha" v).1 =
        { balance := 10000 - v + ((1000 : Nat) : ℚ) * (v * 2.25 / 30 / 10000)
          profit := 0 + ((1000 : Nat) : ℚ) * (v * 2.25 / 30 / 10000)
          bots := [{ name := "alpha", investment := v, dailyProfit := v * 2.25 / 30,
                     totalProfit := v * 2.25, progress := ((1000 : Nat) : ℚ) / 10 }]
          timeSpeed := 1 } := by
    intro v hv hle
    have hc : (ForexDemoTrader.createBot ForexDemoTrader.initial "alpha" v).1 =
        { balance := 10000 - v
          profit := 0
          bots := [{ name := "alpha", investment := v, dailyProfit := v * 2.25 / 30,
                     totalProfit := v * 2.25, progress := 0 }]
          timeSpeed := 1 } := by
      have : ¬ (10000 : ℚ) < v := not_lt.mpr hle
      simp [ForexDemoTrader.createBot, ForexDemoTrader.initial, this]
    refine ⟨hc, ?_⟩
    rw [hc]
    exact ForexDemoTrader.ticks_single _ _ _ rfl (by positivity) 1000 (le_refl _)
  refine ⟨?_, ?_, ?_⟩
  · intro v hv hle
    obtain ⟨hc, ht⟩ := hmain v hv hle
    refine ⟨?_, ?_, ?_, ?_, ?_, ?_⟩
    · rw [hc]
      simp
      ring
    · rw [ht]
      simp
      norm_num
    · rw [ht]
      simp
      ring
    · rw [ht, hc]
      simp
      ring
    · linarith
    · have h1 : ForexDemoTrader.ticks 1001
          (ForexDemoTrader.createBot ForexDemoTrader.initial "alpha" v).1 =
          ForexDemoTrader.updateBotProgress (ForexDemoTrader.ticks 1000
            (ForexDemoTrader.createBot ForexDemoTrader.initial "alpha" v).1) := by
        unfold ForexDemoTrader.ticks
        rw [Function.iterate_succ_apply']
      rw [h1, ht]
      exact ForexDemoTrader.updateBotProgress_done _ _ _ (by simp; norm_num)
  · rw [(hmain 1000 (by norm_num) (by norm_num)).2]
    simp
    norm_num
  · rw [(hmain 1000 (by norm_num) (by norm_num)).1]
    simp
    norm_num

/-! ### Pagination -/

/-- C30 (the code breaks it): with the defaults the requested range is
`[0, 19]`, and with `page=2` and the default limit `[20, 39]`; with `page=2`
and `limit=20` both taken from the query string the range is `[20, 2019]`,
2000 rows instead of the 20 of `[20, 39]`, because `offset + limit`
concatenates the number 20 and the string `20`; likewise `page=3`, `limit=10`
gives `[20, 2009]`. -/
theorem adminServer_listRange_concatenates :
    AdminServer.listRange none none = (JsValue.num 0, JsValue.num 19) ∧
    AdminServer.listRange (some "2") none = (JsValue.num 20, JsValue.num 39) ∧
    AdminServer.listRange (some "1") (some "20") = (JsValue.num 0, JsValue.num 19) ∧
    AdminServer.listRange (some "2") (some "20") = (JsValue.num 20, JsValue.num 2019) ∧
    AdminServer.listRange (some "3") (some "10") = (JsValue.num 20, JsValue.num 2009) ∧
    (JsValue.num 20).add (JsValue.str "20") = JsValue.str "2020" := by
  refine ⟨?_, ?_, ?_, ?_, ?_, ?_⟩ <;> decide

end Forexpro
